import Mathlib

/-!
# Archive context of the Alembic importer (`Plugin/abci/Importer/aiContext.cpp`)

A shallow embedding of `aiContext` and of the process-wide `GlobalCache`
registry, followed by theorems about frame-range caching, time-range
resolution, the context lifecycle and the registry.

Conventions of the embedding
* `double` values (sample times, time range) are exact rationals `ℚ`.
* `int`/`int64_t` values are `Int`; C++ `/` and `%` are `Int.tdiv`/`Int.tmod`
  (truncation toward zero); the narrowing `int(...)` is `toInt32`, and so is
  the result of the `int` subtraction `numCycles - 1` (two's complement wrap).
* Effects that are not fields of the context (task pool, backend opens,
  releases) are recorded as an ordered list of `Event`s returned next to the
  new state.
* Logging (`aiLogger`, `DebugLog`) has no effect on the state and is omitted.
-/

namespace abci

/-! ## Backend data: time samplings, objects, archives -/

/-- The enum `aiTimeSamplingType`. -/
inductive aiTimeSamplingType where
  | Uniform
  | Cyclic
  | Acyclic
  deriving DecidableEq, Repr

/-- What `aiContext` reads from one time sampling of the archive:
`getTimeSamplingType()` (kind, `getNumSamplesPerCycle()`, `getTimePerCycle()`),
`getStoredTimes()` and the archive-side
`getMaxNumSamplesForTimeSamplingIndex(i)`.  The stored times are
`firstStoredTime :: laterStoredTimes`: the backend always has at least one
stored time (source comment in `load`). -/
structure TimeSampling where
  type : aiTimeSamplingType
  numSamplesPerCycle : Nat
  timePerCycle : ℚ
  firstStoredTime : ℚ
  laterStoredTimes : List ℚ
  maxNumSamples : Int
  deriving DecidableEq, Repr

/-- The vector returned by `ts->getStoredTimes()`. -/
def TimeSampling.getStoredTimes (ts : TimeSampling) : List ℚ :=
  ts.firstStoredTime :: ts.laterStoredTimes

/-- The value of `ts->getNumStoredTimes()`. -/
def TimeSampling.getNumStoredTimes (ts : TimeSampling) : Nat :=
  ts.getStoredTimes.length

/-- Modelled from the spec: `TimeSampling::getSampleTime` belongs to the backend
library and is missing from the sources; the spec's `timeAt(i)` of an Acyclic
descriptor is its `i`-th stored time (the only kind `aiContext` asks it for). -/
def TimeSampling.getSampleTime (ts : TimeSampling) (i : Nat) : ℚ :=
  ts.getStoredTimes.getD i ts.firstStoredTime

/-- The value an `int` holds for the mathematical integer `x`: the narrowing
conversion of a 64-bit value to `int`, and the result of `int` arithmetic,
both with two's complement wrap. -/
def toInt32 (x : Int) : Int :=
  (x + 2147483648) % 4294967296 - 2147483648

/-- The local `numCycles` of `load` and `getTimeSampling`:
`int(m_archive.getMaxNumSamplesForTimeSamplingIndex(i) / tst.getNumSamplesPerCycle())`. -/
def numCycles (ts : TimeSampling) : Int :=
  toInt32 (Int.tdiv ts.maxNumSamples (ts.numSamplesPerCycle : Int))

/-- A backend object: the core only enumerates its children. -/
inductive abcObject where
  | mk (children : List abcObject)
  deriving Repr

/-- A node of the hierarchy owned by the context: it wraps a backend object
and owns its child nodes. -/
inductive aiObject where
  | mk (abc : abcObject) (children : List aiObject)
  deriving Repr

/-- The backend archive handle `Abc::IArchive`. -/
structure IArchive where
  valid : Bool
  top : abcObject
  timeSamplings : List TimeSampling
  deriving Repr

/-- A default-constructed (or `reset()`) archive handle: not valid. -/
def IArchive.null : IArchive :=
  { valid := false, top := abcObject.mk [], timeSamplings := [] }

/-! ## Configuration -/

inductive aiNormalsMode where
  | ReadFromFile
  | ComputeIfMissing
  | AlwaysCompute
  | Ignore
  deriving DecidableEq, Repr

inductive aiTangentsMode where
  | None
  | Smooth
  | Split
  deriving DecidableEq, Repr

/-- The struct `aiConfig`, with the fields the sources read. -/
structure aiConfig where
  swapHandedness : Bool
  swapFaceWinding : Bool
  submeshPerUVTile : Bool
  normalsMode : aiNormalsMode
  tangentsMode : aiTangentsMode
  cacheTangentsSplits : Bool
  aspectRatio : ℚ
  forceUpdate : Bool
  cacheSamples : Bool
  deriving DecidableEq, Repr

/-! ## Effects -/

/-- Observable effects of the context's operations, in program order. -/
inductive Event where
  /-- The barrier `m_tasks.wait()` on the task pool. -/
  | waitTasks
  /-- The call `m_top_node.reset()`: the node hierarchy is released. -/
  | releaseTopNode
  /-- The calls `m_top_node.reset(new aiObject(..))` and `gatherNodesRecursive`. -/
  | buildTopNode
  /-- The statement `delete obj` for a node that is not the top node. -/
  | deleteNode
  /-- An assignment to `m_path`. -/
  | setPath (path : String)
  /-- The call `m_archive.reset()`: the archive handle is released. -/
  | releaseArchive
  /-- An assignment to `m_archive`. -/
  | setArchive
  /-- An attempt to open the path with the Ogawa codec. -/
  | openOgawa (path : String)
  /-- An attempt to open the path with the HDF5 codec. -/
  | openHDF5 (path : String)
  /-- An assignment to `m_timeRange`. -/
  | setTimeRange (range : ℚ × ℚ)
  /-- An assignment to `m_numFrames`. -/
  | setNumFrames (n : Int)
  /-- An assignment to `m_config`. -/
  | setConfig
  /-- The call `eachNodes(o->cacheSamples(startIndex, endIndex))` on the calling thread. -/
  | cacheNodes (startIndex endIndex : Int)
  /-- The `enqueueTask` of a block task: every node caches `[startIndex, endIndex)`. -/
  | enqueueBlock (startIndex endIndex : Int)
  /-- The `enqueueTask` of a per-node task (node number in visiting order). -/
  | enqueueNode (node : Nat) (startIndex endIndex : Int)
  /-- The call `eachNodes(o->updateSample(ss))` for the selector of the given time. -/
  | updateNodes (time : ℚ)
  deriving DecidableEq, Repr

/-! ## The context -/

/-- The data members of `aiContext`. -/
structure aiContext where
  m_uid : Int
  m_path : String
  m_archive : IArchive
  m_top_node : Option aiObject
  m_timeRange : ℚ × ℚ
  m_numFrames : Int
  m_config : aiConfig
  deriving Repr

/-! ## `cacheAllSamples` -/

/-- The local constant `numFramesPerBlock` of `cacheAllSamples`. -/
def numFramesPerBlock : Int := 10

/-- The local `lastBlockSize` of `cacheAllSamples`. -/
def lastBlockSize (numFrames : Int) : Int :=
  Int.tmod numFrames numFramesPerBlock

/-- The local `numBlocks` of `cacheAllSamples`. -/
def numBlocks (numFrames : Int) : Int :=
  Int.tdiv numFrames numFramesPerBlock + (if lastBlockSize numFrames = 0 then 0 else 1)

/-- The `(startIndex, endIndex)` of the task enqueued by iteration `i` of the
loop of `cacheAllSamples`. -/
def blockRange (numFrames : Int) (i : Int) : Int × Int :=
  (if i = 0 then 1 else i * numFramesPerBlock,
   i * numFramesPerBlock +
     (if i = numBlocks numFrames - 1 then lastBlockSize numFrames else numFramesPerBlock))

/-- The ranges of all tasks enqueued by `cacheAllSamples`, in enqueue order:
the loop `for (int64_t i = 0; i < numBlocks; i++)`. -/
def blockTasks (numFrames : Int) : List (Int × Int) :=
  (List.range (numBlocks numFrames).toNat).map fun (i : Nat) => blockRange numFrames (i : Int)

/-- The method `aiContext::cacheAllSamples`: frame 0 is cached on the calling thread, one
task per block is enqueued, then the barrier.  No data member changes. -/
def cacheAllSamples (c : aiContext) : aiContext × List Event :=
  (c, Event.cacheNodes 0 1
        :: ((blockTasks c.m_numFrames).map fun r => Event.enqueueBlock r.1 r.2)
        ++ [Event.waitTasks])

/-- Sample index `i` is requested by `cacheAllSamples` for `numFrames` frames:
it lies in the synchronously cached `[0, 1)` or in the half-open range of an
enqueued task. -/
def cachedByAll (numFrames : Int) (i : Int) : Prop :=
  (0 ≤ i ∧ i < 1) ∨ ∃ r ∈ blockTasks numFrames, r.1 ≤ i ∧ i < r.2

instance (numFrames i : Int) : Decidable (cachedByAll numFrames i) := by
  unfold cachedByAll
  infer_instance

/-! ## Build variant, backend codecs, member initialisers -/

/-- What the sources take from outside `aiContext.cpp`: the build variant
(whether `_WIN32` is defined), the two backend codecs (`none`: the
`Abc::IArchive` constructor throws `Alembic::Util::Exception`), and the default
member initialisers of `aiContext.h` for the members the constructor
`aiContext(int uid)` does not set. -/
structure Env where
  win32 : Bool
  openOgawa : String → Option IArchive
  openHDF5 : String → Option IArchive
  initTimeRange : ℚ × ℚ
  initNumFrames : Int
  initConfig : aiConfig

/-- The constructor `aiContext::aiContext(int uid)`: the string, the archive
handle and the node pointer are default-constructed. -/
def aiContext.new (env : Env) (uid : Int) : aiContext :=
  { m_uid := uid
    m_path := ""
    m_archive := IArchive.null
    m_top_node := none
    m_timeRange := env.initTimeRange
    m_numFrames := env.initNumFrames
    m_config := env.initConfig }

/-- The destructor `aiContext::~aiContext`: barrier, then the hierarchy and the
archive are released. -/
def aiContext.destructor (_c : aiContext) : List Event :=
  [Event.waitTasks, Event.releaseTopNode, Event.releaseArchive]

/-! ## Node hierarchy -/

mutual
/-- The tree built by `new aiObject(this, nullptr, abcTop)` followed by
`gatherNodesRecursive`: one child node per backend child, recursively. -/
def gatherNodesRecursive : abcObject → aiObject
  | abcObject.mk cs => aiObject.mk (abcObject.mk cs) (gatherChildren cs)
/-- The loop over `abc.getChild(i)` of `gatherNodesRecursive`. -/
def gatherChildren : List abcObject → List aiObject
  | [] => []
  | c :: cs => gatherNodesRecursive c :: gatherChildren cs
end

mutual
/-- Number of nodes `eachNodes` visits below and including a node. -/
def aiObject.numNodes : aiObject → Nat
  | aiObject.mk _ cs => 1 + numNodesList cs
/-- Number of nodes in a list of sibling subtrees. -/
def numNodesList : List aiObject → Nat
  | [] => 0
  | c :: cs => c.numNodes + numNodesList cs
end

/-- Number of nodes `eachNodes` visits: none when there is no top node. -/
def aiContext.numNodes (c : aiContext) : Nat :=
  match c.m_top_node with
  | none => 0
  | some o => o.numNodes

/-! ## Path normalisation -/

/-- The body of the loop of `normalizePath` for one character. -/
def normalizeChar (c : Char) : Char :=
  if c = '\\' then '/'
  else if 'A' ≤ c ∧ c ≤ 'Z' then Char.ofNat ('a'.toNat + (c.toNat - 'A'.toNat))
  else c

/-- The function `aiContext::normalizePath`; `none` is a null `inPath`. -/
def normalizePath (env : Env) (inPath : Option String) : String :=
  match inPath with
  | none => ""
  | some p => if env.win32 then String.mk (p.data.map normalizeChar) else p

/-! ## `reset` and `load` -/

/-- The method `aiContext::reset`. -/
def reset (c : aiContext) : aiContext × List Event :=
  ({ c with m_top_node := none, m_path := "", m_archive := IArchive.null, m_timeRange := (0, 0) },
   [Event.waitTasks, Event.releaseTopNode, Event.setPath "", Event.releaseArchive,
    Event.setTimeRange (0, 0)])

/-- The value of `std::numeric_limits<double>::max()`. -/
def dblMax : ℚ := (2 ^ 53 - 1) * 2 ^ 971

/-- One iteration of the loop over the time samplings in `load`, on the pair
`(m_timeRange, m_numFrames)`.  The factor `numCycles - 1` of line 400 is an
`int` expression, converted to `double` for the product. -/
def scanStep (st : (ℚ × ℚ) × Int) (ts : TimeSampling) : (ℚ × ℚ) × Int :=
  if ts.type = aiTimeSamplingType.Cyclic ∨ ts.type = aiTimeSamplingType.Uniform then
    let n := numCycles ts
    let t0 := ts.firstStoredTime
    ((t0, t0 + ((toInt32 (n - 1) : Int) : ℚ) * ts.timePerCycle), if n > st.2 then n else st.2)
  else if ts.type = aiTimeSamplingType.Acyclic then
    ((ts.getSampleTime 0, ts.getSampleTime (ts.getNumStoredTimes - 1)), st.2)
  else st

/-- The loop `for (i = 0; i < m_archive.getNumTimeSamplings(); ++i)` of `load`. -/
def scanTimeSamplings (st : (ℚ × ℚ) × Int) (tss : List TimeSampling) : (ℚ × ℚ) × Int :=
  tss.foldl scanStep st

/-- The test `if (m_timeRange[0] > m_timeRange[1])` after the loop. -/
def collapseRange (r : ℚ × ℚ) : ℚ × ℚ :=
  if r.1 > r.2 then (0, 0) else r

/-- The assignments the loop of `load` performs, in order. -/
def scanEvents : Int → List TimeSampling → List Event
  | _, [] => []
  | n, ts :: rest =>
    let st := scanStep ((0, 0), n) ts
    (Event.setTimeRange st.1 :: (if st.2 = n then [] else [Event.setNumFrames st.2]))
      ++ scanEvents st.2 rest

/-- The nested `try`/`catch` of `load`: Ogawa first, HDF5 when Ogawa throws;
when both throw `m_archive` keeps the default-constructed handle.  The handle
tested by `if (!m_archive.valid())` was default-constructed on the line
before, so the `else` branch of that test is never taken. -/
def openArchive (env : Env) (path : String) : IArchive × List Event :=
  match env.openOgawa path with
  | some a => (a, [Event.openOgawa path, Event.setArchive])
  | none =>
    match env.openHDF5 path with
    | some a => (a, [Event.openOgawa path, Event.openHDF5 path, Event.setArchive])
    | none => (IArchive.null, [Event.openOgawa path, Event.openHDF5 path])

/-- The method `aiContext::load`; the result is the returned `bool`, the context
afterwards and the effects in order. -/
def load (env : Env) (inPath : Option String) (c : aiContext) :
    Bool × aiContext × List Event :=
  let path := normalizePath env inPath
  if path = c.m_path ∧ c.m_archive.valid = true then
    (true, c, [])
  else
    let (c1, t1) := reset c
    if path.length = 0 then
      (false, c1, t1)
    else
      let (archive, t2) := openArchive env path
      let c2 := { c1 with m_path := path, m_archive := archive }
      let t12 := t1 ++ [Event.setPath path, Event.setArchive] ++ t2
      if archive.valid = true then
        let st := scanTimeSamplings ((dblMax, -dblMax), c2.m_numFrames) archive.timeSamplings
        let c3 := { c2 with
          m_top_node := some (gatherNodesRecursive archive.top)
          m_timeRange := collapseRange st.1
          m_numFrames := st.2 }
        let t3 := t12 ++ [Event.buildTopNode, Event.setTimeRange (dblMax, -dblMax)]
          ++ scanEvents c2.m_numFrames archive.timeSamplings
          ++ (if st.1.1 > st.1.2 then [Event.setTimeRange (0, 0)] else [])
        if c3.m_config.cacheSamples = true then
          let (c4, t4) := cacheAllSamples c3
          (true, c4, t3 ++ t4)
        else
          (true, c3, t3)
      else
        (false, { c2 with m_path := "", m_archive := IArchive.null, m_timeRange := (0, 0) },
         t12 ++ [Event.setPath "", Event.releaseArchive, Event.setTimeRange (0, 0)])

/-! ## The other public operations of a context -/

/-- The method `aiContext::setConfig`. -/
def setConfig (config : aiConfig) (c : aiContext) : aiContext × List Event :=
  ({ c with m_config := config }, [Event.setConfig])

/-- The method `aiContext::destroyObject`.  `objIsTop` is the outcome of
`obj == getTopObject()`; `del` is the effect of `delete obj` (the destructor
of `aiObject`, which is outside these sources) on the tree below the top
node. -/
def destroyObject (del : aiObject → aiObject) (objIsTop : Bool) (c : aiContext) :
    aiContext × List Event :=
  if objIsTop = true then
    ({ c with m_top_node := none }, [Event.releaseTopNode])
  else
    ({ c with m_top_node := c.m_top_node.map del }, [Event.deleteNode])

/-- The method `aiContext::cacheSamples(startIndex, endIndex)`: one task per
node, then the barrier. -/
def cacheSamples (startIndex endIndex : Int) (c : aiContext) : aiContext × List Event :=
  (c, ((List.range c.numNodes).map fun k => Event.enqueueNode k startIndex endIndex)
        ++ [Event.waitTasks])

/-- The method `aiContext::updateSamples`. -/
def updateSamples (time : ℚ) (c : aiContext) : aiContext × List Event :=
  (c, [Event.updateNodes time])

/-- The public operations of a context that the lifecycle is stated over. -/
inductive Op where
  | load (inPath : Option String)
  | reset
  | setConfig (config : aiConfig)
  | destroyObject (del : aiObject → aiObject) (objIsTop : Bool)
  | cacheAllSamples
  | cacheSamples (startIndex endIndex : Int)
  | updateSamples (time : ℚ)

/-- The context after one public operation. -/
def applyOp (env : Env) (op : Op) (c : aiContext) : aiContext :=
  match op with
  | Op.load inPath => (load env inPath c).2.1
  | Op.reset => (reset c).1
  | Op.setConfig config => (setConfig config c).1
  | Op.destroyObject del objIsTop => (destroyObject del objIsTop c).1
  | Op.cacheAllSamples => (cacheAllSamples c).1
  | Op.cacheSamples s e => (cacheSamples s e c).1
  | Op.updateSamples t => (updateSamples t c).1

/-- The context after a sequence of public operations, first to last. -/
def runOps (env : Env) (ops : List Op) (c : aiContext) : aiContext :=
  ops.foldl (fun c op => applyOp env op c) c

/-- Whether an operation is `destroyObject` called on the top node. -/
def Op.destroysTop : Op → Bool
  | Op.destroyObject _ objIsTop => objIsTop
  | _ => false

/-! ## The registry `GlobalCache` -/

/-- A non-null `aiContext*` (an address of the heap). -/
abbrev Ptr := Nat

/-- The type `ContextMap = std::map<int, aiContext*>`: its entries in key order. -/
abbrev ContextMap := List (Int × Ptr)

/-- Representation invariant of `std::map`: keys strictly increasing. -/
def ContextMap.WF (m : ContextMap) : Prop :=
  (m.map Prod.fst).Pairwise (fun a b => a < b)

/-- The lookup `m_contexts.find(uid)`: `none` is `end()`. -/
def ContextMap.find : ContextMap → Int → Option Ptr
  | [], _ => none
  | (k, p) :: rest, uid => if k = uid then some p else ContextMap.find rest uid

/-- The assignment `m_contexts[uid] = ctx`. -/
def ContextMap.set : ContextMap → Int → Ptr → ContextMap
  | [], uid, ctx => [(uid, ctx)]
  | (k, p) :: rest, uid, ctx =>
    if uid < k then (uid, ctx) :: (k, p) :: rest
    else if uid = k then (k, ctx) :: rest
    else (k, p) :: ContextMap.set rest uid ctx

/-- The call `m_contexts.erase(it)` for the entry found under `uid`. -/
def ContextMap.erase : ContextMap → Int → ContextMap
  | [], _ => []
  | (k, p) :: rest, uid => if k = uid then rest else (k, p) :: ContextMap.erase rest uid

/-- Number of entries stored under `uid`. -/
def ContextMap.count (m : ContextMap) (uid : Int) : Nat :=
  (m.filter fun e => decide (e.1 = uid)).length

/-- The process state the registry works on: the singleton's map
(`ms_instance.m_contexts`), the live `aiContext` objects by address, and the
next address `new` hands out. -/
structure World where
  m_contexts : ContextMap
  heap : List (Ptr × aiContext)
  nextPtr : Ptr

/-- The expression `new aiContext(uid)`. -/
def World.alloc (env : Env) (uid : Int) (w : World) : Ptr × World :=
  (w.nextPtr, { w with heap := (w.nextPtr, aiContext.new env uid) :: w.heap,
                       nextPtr := w.nextPtr + 1 })

/-- The statement `delete ctx`: the object leaves the heap. -/
def World.free (ctx : Ptr) (w : World) : World :=
  { w with heap := w.heap.filter fun e => decide (e.1 ≠ ctx) }

/-- The function `GlobalCache::GetContext`; `none` is the null pointer. -/
def GetContext (uid : Int) (w : World) : Option Ptr :=
  ContextMap.find w.m_contexts uid

/-- The function `GlobalCache::RegisterContext`. -/
def RegisterContext (uid : Int) (ctx : Ptr) (w : World) : Bool × World :=
  match ContextMap.find w.m_contexts uid with
  | some _ => (false, w)
  | none => (true, { w with m_contexts := ContextMap.set w.m_contexts uid ctx })

/-- The function `GlobalCache::UnregisterContext`. -/
def UnregisterContext (uid : Int) (w : World) : World :=
  match ContextMap.find w.m_contexts uid with
  | some _ => { w with m_contexts := ContextMap.erase w.m_contexts uid }
  | none => w

/-- The function `aiContext::create`. -/
def create (env : Env) (uid : Int) (w : World) : Ptr × World :=
  match GetContext uid w with
  | some ctx => (ctx, w)
  | none =>
    let (ctx, w1) := World.alloc env uid w
    (ctx, (RegisterContext uid ctx w1).2)

/-- Result of code that can reach undefined behaviour: `done` is a normal
return, `undefined s` says the C++ standard gives no meaning to the execution
from state `s` on. -/
inductive Outcome (σ : Type) where
  | done (s : σ)
  | undefined (s : σ)

/-- The loop of `GlobalCache::clearContextsWithPath` from the iterator position
whose remaining entries are `rest`.  On a match the context is deleted and
`erase(it)` invalidates `it`; the loop header then evaluates `++it` on the
invalidated iterator, which is undefined.  Dereferencing an entry whose
object is not live is undefined as well. -/
def clearLoop (path : String) : List (Int × Ptr) → World → Outcome World
  | [], w => Outcome.done w
  | (uid, ctx) :: rest, w =>
    match w.heap.lookup ctx with
    | none => Outcome.undefined w
    | some c =>
      if c.m_path = path then
        Outcome.undefined
          (World.free ctx { w with m_contexts := ContextMap.erase w.m_contexts uid })
      else clearLoop path rest w

/-- The function `GlobalCache::clearContextsWithPath` (and
`aiContext::clearContextsWithPath`, which forwards to it). -/
def clearContextsWithPath (env : Env) (assetPath : Option String) (w : World) :
    Outcome World :=
  clearLoop (normalizePath env assetPath) w.m_contexts w

/-- The function `aiContext::destroy`; reading `ctx->getUid()` of an object
that is not live is undefined. -/
def destroy (ctx : Ptr) (w : World) : Outcome World :=
  match w.heap.lookup ctx with
  | none => Outcome.undefined w
  | some c => Outcome.done (World.free ctx (UnregisterContext c.m_uid w))

/-! ## Per-descriptor ranges -/

/-- The pair the branch of the loop of `load` taken for `ts` assigns to
`m_timeRange`. -/
def timeSamplingRange (ts : TimeSampling) : ℚ × ℚ :=
  (scanStep ((0, 0), 0) ts).1

/-- The spec's frame count of an archive: the greatest
`floor(maxSamples / samplesPerCycle)` over its Uniform/Cyclic descriptors
(0 when there is none). -/
def maxNumCycles (tss : List TimeSampling) : Int :=
  tss.foldl
    (fun m t =>
      if t.type = aiTimeSamplingType.Acyclic then m
      else max m (t.maxNumSamples / (t.numSamplesPerCycle : Int)))
    0

/-! ## Concrete inputs used to evaluate the code -/

/-- A configuration with every flag off. -/
def exConfig : aiConfig :=
  { swapHandedness := false, swapFaceWinding := false, submeshPerUVTile := false,
    normalsMode := aiNormalsMode.ReadFromFile, tangentsMode := aiTangentsMode.None,
    cacheTangentsSplits := false, aspectRatio := 1, forceUpdate := false,
    cacheSamples := false }

/-- A valid archive with an empty top object and the given time samplings. -/
def exArchive (tss : List TimeSampling) : IArchive :=
  { valid := true, top := abcObject.mk [], timeSamplings := tss }

/-- A Uniform descriptor: one sample per cycle. -/
def exUniform (start interval : ℚ) (maxSamples : Int) : TimeSampling :=
  { type := aiTimeSamplingType.Uniform, numSamplesPerCycle := 1, timePerCycle := interval,
    firstStoredTime := start, laterStoredTimes := [], maxNumSamples := maxSamples }

/-- An Acyclic descriptor with stored times `t0 :: ts`. -/
def exAcyclic (t0 : ℚ) (ts : List ℚ) : TimeSampling :=
  { type := aiTimeSamplingType.Acyclic, numSamplesPerCycle := 4294967295, timePerCycle := 0,
    firstStoredTime := t0, laterStoredTimes := ts, maxNumSamples := (ts.length : Int) + 1 }

/-- A non-Windows build whose Ogawa codec opens `files path` when it is listed
and throws otherwise, and whose HDF5 codec always throws. -/
def exEnv (files : String → Option IArchive) : Env :=
  { win32 := false, openOgawa := files, openHDF5 := fun _ => none,
    initTimeRange := (0, 0), initNumFrames := 0, initConfig := exConfig }

/-- Whether the execution reached undefined behaviour. -/
def Outcome.isUndefined {σ : Type} : Outcome σ → Bool
  | Outcome.done _ => false
  | Outcome.undefined _ => true

/-- The state at the normal return, or the one in which undefined behaviour
was reached. -/
def Outcome.state {σ : Type} : Outcome σ → σ
  | Outcome.done s => s
  | Outcome.undefined s => s

/-- The Empty state of the lifecycle: no path, no valid handle, no top node,
time range (0, 0). -/
def aiContext.Empty (c : aiContext) : Prop :=
  c.m_path = "" ∧ c.m_archive.valid = false ∧ c.m_top_node = none ∧ c.m_timeRange = (0, 0)

/-- A context as `load` leaves it after opening, under `path`, a valid archive
without time samplings. -/
def exLoaded (uid : Int) (path : String) : aiContext :=
  { m_uid := uid, m_path := path, m_archive := exArchive [],
    m_top_node := some (gatherNodesRecursive (abcObject.mk [])),
    m_timeRange := (0, 0), m_numFrames := 0, m_config := exConfig }

/-- The part of the lifecycle invariant every operation keeps: the handle is
valid exactly when the path is non-empty, and a top node is present only
then. -/
def aiContext.Coherent (c : aiContext) : Prop :=
  (c.m_archive.valid = true ↔ c.m_path ≠ "") ∧
    (c.m_top_node.isSome = true → c.m_archive.valid = true)

/-- The spec's lifecycle invariant: top node present, handle valid and path
non-empty are all true or all false. -/
def aiContext.AllOrNone (c : aiContext) : Prop :=
  (c.m_top_node.isSome = true ↔ c.m_archive.valid = true) ∧
    (c.m_archive.valid = true ↔ c.m_path ≠ "")

/-- A registry with three live contexts: identifiers 1 and 2 on `a.abc`,
identifier 3 on `b.abc`. -/
def exWorld : World :=
  { m_contexts := [(1, 10), (2, 11), (3, 12)],
    heap := [(10, exLoaded 1 "a.abc"), (11, exLoaded 2 "a.abc"), (12, exLoaded 3 "b.abc")],
    nextPtr := 13 }

/-! ## `getTimeSampling` and `copyTimeSampling` -/

/-- A `double*` as the two functions use it: null, a caller-owned array (by
address), or the start of the stored times of time sampling `i` inside the
archive (`&ts->getStoredTimes()[0]`). -/
inductive DoublePtr where
  | null
  | buffer (addr : Nat)
  | storedTimes (i : Nat)
  deriving DecidableEq, Repr

/-- The struct `aiTimeSamplingData`, with the fields the sources access. -/
structure aiTimeSamplingData where
  type : aiTimeSamplingType
  startTime : ℚ
  endTime : ℚ
  interval : ℚ
  numTimes : Int
  times : DoublePtr
  deriving DecidableEq, Repr

/-- Caller-owned arrays of `double`, by address. -/
abbrev CallerMemory := Nat → List ℚ

/-- The call `memcpy(dst, &times[0], sizeof(times[0]) * times.size())` as seen
from the caller-owned arrays: a destination inside a caller array receives
`times` over its first entries; a destination that is the archive's own
stored times is outside the caller-owned arrays. -/
def memcpy (dst : DoublePtr) (times : List ℚ) (mem : CallerMemory) : CallerMemory :=
  match dst with
  | DoublePtr.buffer addr =>
    fun a => if a = addr then times ++ (mem addr).drop times.length else mem a
  | _ => mem

/-- The method `aiContext::getTimeSampling(i, dst)`: the `dst` afterwards, or
`none` when the archive has no time sampling `i`.  `fl` is the rounding of the
`(float)` conversions and of `float` arithmetic. -/
def getTimeSampling (fl : ℚ → ℚ) (i : Nat) (dst : aiTimeSamplingData) (c : aiContext) :
    Option aiTimeSamplingData :=
  match c.m_archive.timeSamplings[i]? with
  | none => none
  | some ts =>
    let dst1 := { dst with numTimes := toInt32 (ts.getNumStoredTimes : Int) }
    if ts.type = aiTimeSamplingType.Uniform ∨ ts.type = aiTimeSamplingType.Cyclic then
      let n := numCycles ts
      let interval := fl ts.timePerCycle
      let startTime := fl ts.firstStoredTime
      some
        { type := if ts.type = aiTimeSamplingType.Uniform then aiTimeSamplingType.Uniform
                  else aiTimeSamplingType.Cyclic
          interval := interval
          startTime := startTime
          endTime := fl (startTime + fl (interval * fl ((toInt32 (n - 1) : Int) : ℚ)))
          numTimes := toInt32 (ts.getNumStoredTimes : Int)
          times := DoublePtr.storedTimes i }
    else if ts.type = aiTimeSamplingType.Acyclic then
      some
        { dst1 with
          type := aiTimeSamplingType.Acyclic
          startTime := fl (ts.getSampleTime 0)
          endTime := fl (ts.getSampleTime (ts.getNumStoredTimes - 1))
          numTimes := toInt32 (ts.getNumStoredTimes : Int)
          times := DoublePtr.storedTimes i }
    else some dst1

/-- The method `aiContext::copyTimeSampling(i, dst)`: the `dst` and the
caller-owned arrays afterwards.  The destination of the `memcpy` is
`dst.times` as `getTimeSampling` left it. -/
def copyTimeSampling (fl : ℚ → ℚ) (i : Nat) (dst : aiTimeSamplingData) (mem : CallerMemory)
    (c : aiContext) : Option (aiTimeSamplingData × CallerMemory) :=
  let dst_numSamples := dst.numTimes
  let dst_samples := dst.times
  match getTimeSampling fl i dst c with
  | none => none
  | some d =>
    if d.type = aiTimeSamplingType.Acyclic then
      match c.m_archive.timeSamplings[i]? with
      | none => none
      | some ts =>
        let times := ts.getStoredTimes
        if dst_samples ≠ DoublePtr.null ∧ dst_numSamples ≥ toInt32 (times.length : Int) then
          some (d, memcpy d.times times mem)
        else some (d, mem)
    else some (d, mem)

/-! ## Predicates the theorems are stated with -/

/-- Whether an effect releases or mutates the node hierarchy, the archive
handle, the path or the time range. -/
def Event.touchesSharedState : Event → Bool
  | Event.releaseTopNode => true
  | Event.buildTopNode => true
  | Event.deleteNode => true
  | Event.setPath _ => true
  | Event.releaseArchive => true
  | Event.setArchive => true
  | Event.setTimeRange _ => true
  | _ => false

/-- In the trace every release or mutation of shared state comes after a
barrier of the same trace. -/
def BarrierFirst (trace : List Event) : Prop :=
  ∀ pre e post, trace = pre ++ e :: post → e.touchesSharedState = true →
    Event.waitTasks ∈ pre

/-- No sample index lies in both half-open index ranges. -/
def RangesDisjoint (r s : Int × Int) : Prop :=
  ∀ i : Int, ¬ ((r.1 ≤ i ∧ i < r.2) ∧ (s.1 ≤ i ∧ i < s.2))

/-- An invalid `Abc::IArchive` holds no archive: it is the default-constructed
handle. -/
def aiContext.NullWhenInvalid (c : aiContext) : Prop :=
  c.m_archive.valid = false → c.m_archive = IArchive.null

/-- A Windows build in which no codec opens anything. -/
def exWinEnv : Env :=
  { win32 := true, openOgawa := fun _ => none, openHDF5 := fun _ => none,
    initTimeRange := (0, 0), initNumFrames := 0, initConfig := exConfig }

/-- A caller's `aiTimeSamplingData` announcing a buffer of `size` entries at
address 0. -/
def exDst (size : Int) : aiTimeSamplingData :=
  { type := aiTimeSamplingType.Uniform, startTime := 0, endTime := 0, interval := 0,
    numTimes := size, times := DoublePtr.buffer 0 }

/-- Caller memory whose arrays all hold four entries 9. -/
def exMemory : CallerMemory := fun _ => [9, 9, 9, 9]

/-- While the handle is valid the stored time range is ordered. -/
def aiContext.RangeOrderedWhenValid (c : aiContext) : Prop :=
  c.m_archive.valid = true → c.m_timeRange.1 ≤ c.m_timeRange.2

/-- A loaded context whose archive has one Acyclic time sampling with the
stored times 0, 1/10, 1/2, 2. -/
def exAcyclicContext : aiContext :=
  { exLoaded 1 "a.abc" with m_archive := exArchive [exAcyclic 0 [1 / 10, 1 / 2, 2]] }

/-! ## The time range of `load` with IEEE comparison

The range computation of `load` (lines 384-415) once more, on `double`
values that may be NaN: every comparison with a NaN operand is false and
arithmetic on a NaN gives NaN.  On numbers it is the computation of
`scanStep` and `collapseRange` (theorem `loadTimeRangeIEEE_toIEEE`). -/

/-- A `double` as an IEEE comparison sees it: NaN or a number. -/
inductive IEEEDouble where
  | nan
  | num (q : ℚ)
  deriving DecidableEq, Repr

/-- The operator `>` on `double`: false when an operand is NaN. -/
def IEEEDouble.gt : IEEEDouble → IEEEDouble → Bool
  | IEEEDouble.num a, IEEEDouble.num b => decide (a > b)
  | _, _ => false

/-- The operator `<=` on `double`: false when an operand is NaN. -/
def IEEEDouble.le : IEEEDouble → IEEEDouble → Bool
  | IEEEDouble.num a, IEEEDouble.num b => decide (a ≤ b)
  | _, _ => false

/-- The operator `+` on `double`: NaN when an operand is NaN. -/
def IEEEDouble.add : IEEEDouble → IEEEDouble → IEEEDouble
  | IEEEDouble.num a, IEEEDouble.num b => IEEEDouble.num (a + b)
  | _, _ => IEEEDouble.nan

/-- The operator `*` on `double`: NaN when an operand is NaN. -/
def IEEEDouble.mul : IEEEDouble → IEEEDouble → IEEEDouble
  | IEEEDouble.num a, IEEEDouble.num b => IEEEDouble.num (a * b)
  | _, _ => IEEEDouble.nan

/-- A time sampling whose times are `double` values that may be NaN. -/
structure TimeSamplingIEEE where
  type : aiTimeSamplingType
  numSamplesPerCycle : Nat
  timePerCycle : IEEEDouble
  firstStoredTime : IEEEDouble
  laterStoredTimes : List IEEEDouble
  maxNumSamples : Int
  deriving DecidableEq, Repr

/-- A time sampling whose times are all numbers, as a `TimeSamplingIEEE`. -/
def TimeSampling.toIEEE (ts : TimeSampling) : TimeSamplingIEEE :=
  { type := ts.type
    numSamplesPerCycle := ts.numSamplesPerCycle
    timePerCycle := IEEEDouble.num ts.timePerCycle
    firstStoredTime := IEEEDouble.num ts.firstStoredTime
    laterStoredTimes := ts.laterStoredTimes.map IEEEDouble.num
    maxNumSamples := ts.maxNumSamples }

/-- The local `numCycles` of `load` for a `TimeSamplingIEEE`. -/
def TimeSamplingIEEE.numCycles (ts : TimeSamplingIEEE) : Int :=
  toInt32 (Int.tdiv ts.maxNumSamples (ts.numSamplesPerCycle : Int))

/-- The value of `ts->getSampleTime(i)` for an Acyclic `TimeSamplingIEEE`: its
`i`-th stored time. -/
def TimeSamplingIEEE.getSampleTime (ts : TimeSamplingIEEE) (i : Nat) : IEEEDouble :=
  (ts.firstStoredTime :: ts.laterStoredTimes).getD i ts.firstStoredTime

/-- One iteration of the loop over the time samplings in `load`, on
`m_timeRange` (lines 395-408). -/
def scanStepIEEE (r : IEEEDouble × IEEEDouble) (ts : TimeSamplingIEEE) :
    IEEEDouble × IEEEDouble :=
  if ts.type = aiTimeSamplingType.Cyclic ∨ ts.type = aiTimeSamplingType.Uniform then
    let n := ts.numCycles
    let t0 := ts.firstStoredTime
    (t0, t0.add ((IEEEDouble.num ((toInt32 (n - 1) : Int) : ℚ)).mul ts.timePerCycle))
  else if ts.type = aiTimeSamplingType.Acyclic then
    (ts.getSampleTime 0, ts.getSampleTime ((ts.firstStoredTime :: ts.laterStoredTimes).length - 1))
  else r

/-- The test `if (m_timeRange[0] > m_timeRange[1])` and its branch (lines
411-415). -/
def collapseRangeIEEE (r : IEEEDouble × IEEEDouble) : IEEEDouble × IEEEDouble :=
  if r.1.gt r.2 = true then (IEEEDouble.num 0, IEEEDouble.num 0) else r

/-- The `m_timeRange` that `load` stores for an opened archive with the given
time samplings (lines 384-415). -/
def loadTimeRangeIEEE (tss : List TimeSamplingIEEE) : IEEEDouble × IEEEDouble :=
  collapseRangeIEEE (tss.foldl scanStepIEEE (IEEEDouble.num dblMax, IEEEDouble.num (-dblMax)))

/-- An Acyclic time sampling whose only stored time is NaN. -/
def exNaNAcyclic : TimeSamplingIEEE :=
  { type := aiTimeSamplingType.Acyclic, numSamplesPerCycle := 4294967295,
    timePerCycle := IEEEDouble.num 0, firstStoredTime := IEEEDouble.nan,
    laterStoredTimes := [], maxNumSamples := 1 }

/-! # Theorems -/

/-! ## Frame-range caching -/

theorem tdiv_ten (n : Int) (hn : 0 ≤ n) : Int.tdiv n 10 = n / 10 :=
  Int.tdiv_eq_ediv hn (by decide)

theorem tmod_ten (n : Int) (hn : 0 ≤ n) : Int.tmod n 10 = n % 10 :=
  Int.tmod_eq_emod hn (by decide)

theorem mem_blockTasks (n : Int) (r : Int × Int) :
    r ∈ blockTasks n ↔ ∃ b : Nat, (b : Int) < numBlocks n ∧ r = blockRange n b := by
  unfold blockTasks
  rw [List.mem_map]
  constructor
  · rintro ⟨b, hb, rfl⟩
    rw [List.mem_range] at hb
    exact ⟨b, by omega, rfl⟩
  · rintro ⟨b, hb, rfl⟩
    exact ⟨b, List.mem_range.mpr (by omega), rfl⟩

/-- When the frame count is not a multiple of the block size, every index of
`[0, n)` is requested by `cacheAllSamples`. -/
theorem cachedByAll_of_partial_last_block (n : Int) (hn : 1 ≤ n) (hmod : n % 10 ≠ 0)
    (i : Int) (h0 : 0 ≤ i) (hi : i < n) : cachedByAll n i := by
  by_cases hz : i = 0
  · exact Or.inl ⟨by omega, by omega⟩
  · refine Or.inr ⟨blockRange n ((i / 10).toNat : Nat), ?_, ?_⟩
    · rw [mem_blockTasks]
      refine ⟨(i / 10).toNat, ?_, rfl⟩
      unfold numBlocks lastBlockSize numFramesPerBlock
      rw [tdiv_ten n (by omega), tmod_ten n (by omega), if_neg hmod]
      omega
    · unfold blockRange numBlocks lastBlockSize numFramesPerBlock
      rw [tdiv_ten n (by omega), tmod_ten n (by omega), if_neg hmod]
      have hcast : (((i / 10).toNat : Nat) : Int) = i / 10 := Int.toNat_of_nonneg (by omega)
      rw [hcast]
      dsimp only
      split_ifs <;> omega

/-- When the frame count is a positive multiple of the block size, the last
index is requested by no part of `cacheAllSamples`. -/
theorem not_cachedByAll_of_full_last_block (n : Int) (hn : 1 ≤ n) (hmod : n % 10 = 0) :
    ¬ cachedByAll n (n - 1) := by
  rintro (⟨_, h1⟩ | ⟨r, hr, h1, h2⟩)
  · omega
  · rw [mem_blockTasks] at hr
    obtain ⟨b, hb, rfl⟩ := hr
    revert hb h1 h2
    unfold blockRange numBlocks lastBlockSize numFramesPerBlock
    rw [tdiv_ten n (by omega), tmod_ten n (by omega), if_pos hmod]
    dsimp only
    intro hb h1 h2
    split_ifs at h2 <;> omega

/-- C1 (fails on the code): for 240 frames `cacheAllSamples` enqueues 24 tasks,
the last of which has the empty range `[230, 230)`; the indices 230 and 239
of `[0, 240)` lie neither in `[0, 1)` nor in the range of any enqueued task. -/
theorem cacheAllSamples_240_misses_last_block :
    (blockTasks 240).length = 24 ∧ (blockTasks 240).getLast? = some (230, 230) ∧
      ¬ cachedByAll 240 230 ∧ ¬ cachedByAll 240 239 := by
  decide

/-! ## `load`: the paths through the function -/

theorem load_guard (env : Env) (inPath : Option String) (c : aiContext)
    (hg : normalizePath env inPath = c.m_path ∧ c.m_archive.valid = true) :
    load env inPath c = (true, c, []) := by
  unfold load
  simp only [hg, and_self, if_true]

theorem load_empty_path (env : Env) (inPath : Option String) (c : aiContext)
    (hg : ¬ (normalizePath env inPath = c.m_path ∧ c.m_archive.valid = true))
    (hp : (normalizePath env inPath).length = 0) :
    load env inPath c = (false, (reset c).1, (reset c).2) := by
  unfold load
  simp only [hg, hp, if_false, if_true]

theorem load_open_failed (env : Env) (inPath : Option String) (c : aiContext)
    (hg : ¬ (normalizePath env inPath = c.m_path ∧ c.m_archive.valid = true))
    (hp : (normalizePath env inPath).length ≠ 0)
    (ha : (openArchive env (normalizePath env inPath)).1.valid = false) :
    (load env inPath c).1 = false ∧
      (load env inPath c).2.1 = (reset c).1 := by
  unfold load
  simp only [hg, hp, ha, if_false, Bool.false_eq_true]
  simp [reset]

theorem load_opened (env : Env) (inPath : Option String) (c : aiContext)
    (hg : ¬ (normalizePath env inPath = c.m_path ∧ c.m_archive.valid = true))
    (hp : (normalizePath env inPath).length ≠ 0)
    (ha : (openArchive env (normalizePath env inPath)).1.valid = true) :
    (load env inPath c).1 = true ∧
      (load env inPath c).2.1 =
        { c with
          m_top_node :=
            some (gatherNodesRecursive (openArchive env (normalizePath env inPath)).1.top)
          m_path := normalizePath env inPath
          m_archive := (openArchive env (normalizePath env inPath)).1
          m_timeRange := collapseRange
            (scanTimeSamplings ((dblMax, -dblMax), c.m_numFrames)
              (openArchive env (normalizePath env inPath)).1.timeSamplings).1
          m_numFrames :=
            (scanTimeSamplings ((dblMax, -dblMax), c.m_numFrames)
              (openArchive env (normalizePath env inPath)).1.timeSamplings).2 } := by
  unfold load
  simp only [hg, hp, ha, if_false, if_true]
  by_cases hc : c.m_config.cacheSamples = true <;> simp [reset, cacheAllSamples, hc]

/-! ## The scan of the time samplings -/

theorem scanStep_fst (st : (ℚ × ℚ) × Int) (ts : TimeSampling) :
    (scanStep st ts).1 = timeSamplingRange ts := by
  unfold timeSamplingRange scanStep
  cases h : ts.type <;> simp

theorem scanStep_snd_acyclic (st : (ℚ × ℚ) × Int) (ts : TimeSampling)
    (h : ts.type = aiTimeSamplingType.Acyclic) : (scanStep st ts).2 = st.2 := by
  unfold scanStep
  simp [h]

theorem scanTimeSamplings_fst_getLast (tss : List TimeSampling) (hne : tss ≠ [])
    (st : (ℚ × ℚ) × Int) :
    (scanTimeSamplings st tss).1 = timeSamplingRange (tss.getLast hne) := by
  induction tss generalizing st with
  | nil => exact absurd rfl hne
  | cons t rest ih =>
    cases rest with
    | nil => simp [scanTimeSamplings, scanStep_fst]
    | cons u rest2 =>
      have h := ih (List.cons_ne_nil u rest2) (scanStep st t)
      simpa [scanTimeSamplings, List.getLast_cons] using h

theorem collapseRange_of_le (r : ℚ × ℚ) (h : r.1 ≤ r.2) : collapseRange r = r := by
  unfold collapseRange
  rw [if_neg (not_lt.mpr h)]

theorem timeSamplingRange_uniform_cyclic (ts : TimeSampling)
    (h : ts.type = aiTimeSamplingType.Uniform ∨ ts.type = aiTimeSamplingType.Cyclic) :
    timeSamplingRange ts =
      (ts.firstStoredTime,
       ts.firstStoredTime + ((toInt32 (numCycles ts - 1) : Int) : ℚ) * ts.timePerCycle) := by
  unfold timeSamplingRange scanStep
  rcases h with h | h <;> simp [h]

theorem getD_last_eq_getLast (l : List ℚ) (hne : l ≠ []) (d : ℚ) :
    l.getD (l.length - 1) d = l.getLast hne := by
  have hlen : l.length - 1 < l.length := by
    have := List.length_pos.mpr hne
    omega
  rw [List.getD_eq_getElem l d hlen, List.getLast_eq_getElem]

theorem timeSamplingRange_acyclic (ts : TimeSampling)
    (h : ts.type = aiTimeSamplingType.Acyclic) :
    timeSamplingRange ts =
      (ts.firstStoredTime,
       (ts.firstStoredTime :: ts.laterStoredTimes).getLast (List.cons_ne_nil _ _)) := by
  unfold timeSamplingRange scanStep
  simp only [h, TimeSampling.getSampleTime, TimeSampling.getNumStoredTimes,
    TimeSampling.getStoredTimes]
  simp only [reduceCtorEq, or_self, if_false, if_true]
  rw [getD_last_eq_getLast _ (List.cons_ne_nil _ _)]
  simp

/-- The narrowing to `int` is exact for a count in `int` range. -/
theorem numCycles_eq_floor (ts : TimeSampling) (h0 : 0 ≤ ts.maxNumSamples)
    (hfit : ts.maxNumSamples / (ts.numSamplesPerCycle : Int) < 2147483648) :
    numCycles ts = ts.maxNumSamples / (ts.numSamplesPerCycle : Int) := by
  unfold numCycles toInt32
  rw [Int.tdiv_eq_ediv h0 (Int.ofNat_nonneg _)]
  have hq : 0 ≤ ts.maxNumSamples / (ts.numSamplesPerCycle : Int) :=
    Int.ediv_nonneg h0 (Int.ofNat_nonneg _)
  omega

/-! ## Time range and frame count after `load` -/

theorem toInt32_of_fits (x : Int) (hlo : -2147483648 ≤ x) (hhi : x < 2147483648) :
    toInt32 x = x := by
  unfold toInt32
  omega

/-- C3 (as amended): when `load` opens a valid archive whose only descriptor
is Uniform or Cyclic with first stored time `s`, time per cycle `d ≥ 0`,
`k ≥ 1` samples per cycle and `N` stored samples, where
`numCycles = floor(N / k)` satisfies `1 ≤ numCycles < 2^31` (the quotient fits
the `int` the code stores it in), it returns true and the time range is
exactly `(s, s + d * (numCycles - 1))`. -/
theorem load_uniform_cyclic_range (env : Env) (inPath : Option String) (c : aiContext)
    (ts : TimeSampling)
    (hg : ¬ (normalizePath env inPath = c.m_path ∧ c.m_archive.valid = true))
    (hp : (normalizePath env inPath).length ≠ 0)
    (ha : (openArchive env (normalizePath env inPath)).1.valid = true)
    (hts : (openArchive env (normalizePath env inPath)).1.timeSamplings = [ts])
    (hty : ts.type = aiTimeSamplingType.Uniform ∨ ts.type = aiTimeSamplingType.Cyclic)
    (hd : 0 ≤ ts.timePerCycle) (hk : 1 ≤ ts.numSamplesPerCycle)
    (h1 : 1 ≤ ts.maxNumSamples / (ts.numSamplesPerCycle : Int))
    (hfit : ts.maxNumSamples / (ts.numSamplesPerCycle : Int) < 2147483648) :
    (load env inPath c).1 = true ∧
      (load env inPath c).2.1.m_timeRange =
        (ts.firstStoredTime,
         ts.firstStoredTime + ts.timePerCycle *
           ((ts.maxNumSamples / (ts.numSamplesPerCycle : Int) - 1 : Int) : ℚ)) := by
  have hkpos : (0 : Int) < (ts.numSamplesPerCycle : Int) := by omega
  have h0 : 0 ≤ ts.maxNumSamples := by
    by_contra hneg
    have hlt : ts.maxNumSamples / (ts.numSamplesPerCycle : Int) < 0 :=
      Int.ediv_neg' (by omega) hkpos
    omega
  have hn : numCycles ts = ts.maxNumSamples / (ts.numSamplesPerCycle : Int) :=
    numCycles_eq_floor ts h0 hfit
  have hm : toInt32 (numCycles ts - 1) = ts.maxNumSamples / (ts.numSamplesPerCycle : Int) - 1 := by
    rw [hn]
    exact toInt32_of_fits _ (by omega) (by omega)
  obtain ⟨hret, hctx⟩ := load_opened env inPath c hg hp ha
  refine ⟨hret, ?_⟩
  rw [hctx]
  show collapseRange _ = _
  rw [hts]
  have hscan : (scanTimeSamplings ((dblMax, -dblMax), c.m_numFrames) [ts]).1
      = timeSamplingRange ts := by
    simp [scanTimeSamplings, scanStep_fst]
  rw [hscan, timeSamplingRange_uniform_cyclic ts hty, hm, mul_comm]
  apply collapseRange_of_le
  have hcast : (0 : ℚ) ≤ ((ts.maxNumSamples / (ts.numSamplesPerCycle : Int) - 1 : Int) : ℚ) := by
    exact_mod_cast (by omega : (0 : Int) ≤ ts.maxNumSamples / (ts.numSamplesPerCycle : Int) - 1)
  have := mul_nonneg hd hcast
  show ts.firstStoredTime ≤ ts.firstStoredTime + _
  linarith

/-- Witness of C3 (as amended): start 0, interval 1/24, one sample per cycle
and 240 stored samples load as (0, 239/24). -/
theorem load_uniform_cyclic_range_witness :
    (load (exEnv fun _ => some (exArchive [exUniform 0 (1 / 24) 240]))
        (some "a.abc") (aiContext.new (exEnv fun _ => none) 1)).1 = true ∧
    (load (exEnv fun _ => some (exArchive [exUniform 0 (1 / 24) 240]))
        (some "a.abc") (aiContext.new (exEnv fun _ => none) 1)).2.1.m_timeRange
      = (0, 239 / 24) := by
  have h := load_uniform_cyclic_range
    (exEnv fun _ => some (exArchive [exUniform 0 (1 / 24) 240]))
    (some "a.abc") (aiContext.new (exEnv fun _ => none) 1) (exUniform 0 (1 / 24) 240)
    (by decide) (by decide) rfl rfl (Or.inl rfl) (by norm_num [exUniform])
    (by decide) (by decide) (by decide)
  refine ⟨h.1, ?_⟩
  rw [h.2]
  have hq : (exUniform 0 (1 / 24) 240).maxNumSamples /
      ((exUniform 0 (1 / 24) 240).numSamplesPerCycle : Int) = 240 := by decide
  rw [hq]
  simp only [exUniform]
  norm_num

/-- C3 (fails on the code): the only descriptor is Uniform with first stored
time 0, time per cycle 1, one sample per cycle and `N = 2^32 + 7` stored
samples, so `floor(N / k) = 4294967303 ≥ 1`.  The code narrows the quotient to
`int`, `numCycles = 7`, and a successful `load` stores (0, 6), not
`(0, 0 + 1 * (4294967303 - 1)) = (0, 4294967302)`. -/
theorem load_uniform_range_narrowed :
    (0 : ℚ) ≤ (exUniform 0 1 4294967303).timePerCycle ∧
    1 ≤ (exUniform 0 1 4294967303).numSamplesPerCycle ∧
    (exUniform 0 1 4294967303).maxNumSamples /
      ((exUniform 0 1 4294967303).numSamplesPerCycle : Int) = 4294967303 ∧
    numCycles (exUniform 0 1 4294967303) = 7 ∧
    (load (exEnv fun _ => some (exArchive [exUniform 0 1 4294967303]))
        (some "a.abc") (aiContext.new (exEnv fun _ => none) 1)).1 = true ∧
    (load (exEnv fun _ => some (exArchive [exUniform 0 1 4294967303]))
        (some "a.abc") (aiContext.new (exEnv fun _ => none) 1)).2.1.m_timeRange = (0, 6) ∧
    (load (exEnv fun _ => some (exArchive [exUniform 0 1 4294967303]))
        (some "a.abc") (aiContext.new (exEnv fun _ => none) 1)).2.1.m_timeRange
      ≠ ((exUniform 0 1 4294967303).firstStoredTime,
         (exUniform 0 1 4294967303).firstStoredTime +
           (exUniform 0 1 4294967303).timePerCycle *
             (((exUniform 0 1 4294967303).maxNumSamples /
               ((exUniform 0 1 4294967303).numSamplesPerCycle : Int) - 1 : Int) : ℚ)) := by
  have hA := load_opened
    (exEnv fun _ => some (exArchive [exUniform 0 1 4294967303]))
    (some "a.abc") (aiContext.new (exEnv fun _ => none) 1) (by decide) (by decide) rfl
  have h6 : toInt32 (numCycles (exUniform 0 1 4294967303) - 1) = 6 := by decide
  have hq : (exUniform 0 1 4294967303).maxNumSamples /
      ((exUniform 0 1 4294967303).numSamplesPerCycle : Int) = 4294967303 := by decide
  have hr : (load (exEnv fun _ => some (exArchive [exUniform 0 1 4294967303]))
      (some "a.abc") (aiContext.new (exEnv fun _ => none) 1)).2.1.m_timeRange = (0, 6) := by
    rw [hA.2]
    show collapseRange _ = _
    rw [scanTimeSamplings_fst_getLast _ (by simp [openArchive, exEnv, exArchive])]
    simp only [openArchive, exEnv, exArchive, List.getLast_singleton]
    rw [timeSamplingRange_uniform_cyclic _ (Or.inl rfl), h6]
    simp only [exUniform, collapseRange]
    norm_num
  refine ⟨by norm_num [exUniform], by decide, hq, by decide, hA.1, hr, ?_⟩
  rw [hr, hq]
  simp only [exUniform]
  norm_num

/-- C4 (fails on the code): a context that loaded an archive of 500 cycles and
then loads an archive whose only descriptor is Uniform with one sample per
cycle and 240 stored samples ends with frame count 500, not 240: neither
`reset` nor `load` clears `m_numFrames` before the scan. -/
theorem load_keeps_stale_numFrames :
    (runOps
        (exEnv fun p =>
          if p = "a.abc" then some (exArchive [exUniform 0 (1 / 24) 500])
          else some (exArchive [exUniform 0 (1 / 24) 240]))
        [Op.load (some "a.abc"), Op.load (some "b.abc")]
        (aiContext.new (exEnv fun _ => none) 1)).m_numFrames = 500 ∧
    (runOps
        (exEnv fun p =>
          if p = "a.abc" then some (exArchive [exUniform 0 (1 / 24) 500])
          else some (exArchive [exUniform 0 (1 / 24) 240]))
        [Op.load (some "a.abc"), Op.load (some "b.abc")]
        (aiContext.new (exEnv fun _ => none) 1)).m_archive.timeSamplings
      = [exUniform 0 (1 / 24) 240] ∧
    maxNumCycles [exUniform 0 (1 / 24) 240] = 240 := by
  have hA := load_opened
    (exEnv fun p =>
      if p = "a.abc" then some (exArchive [exUniform 0 (1 / 24) 500])
      else some (exArchive [exUniform 0 (1 / 24) 240]))
    (some "a.abc") (aiContext.new (exEnv fun _ => none) 1) (by decide) (by decide) rfl
  have hB := load_opened
    (exEnv fun p =>
      if p = "a.abc" then some (exArchive [exUniform 0 (1 / 24) 500])
      else some (exArchive [exUniform 0 (1 / 24) 240]))
    (some "b.abc")
    (load (exEnv fun p =>
      if p = "a.abc" then some (exArchive [exUniform 0 (1 / 24) 500])
      else some (exArchive [exUniform 0 (1 / 24) 240]))
      (some "a.abc") (aiContext.new (exEnv fun _ => none) 1)).2.1
    (by rw [hA.2]; decide) (by decide) rfl
  have e : ∀ env c, runOps env [Op.load (some "a.abc"), Op.load (some "b.abc")] c
      = (load env (some "b.abc") (load env (some "a.abc") c).2.1).2.1 := fun _ _ => rfl
  rw [e, hB.2, hA.2]
  refine ⟨?_, rfl, by decide⟩
  show (scanTimeSamplings _ _).2 = 500
  decide

theorem head_le_getLast (a : ℚ) (l : List ℚ) (h : (a :: l).Pairwise (fun x y => x ≤ y)) :
    a ≤ (a :: l).getLast (List.cons_ne_nil _ _) := by
  cases l with
  | nil => simp
  | cons b rest =>
    have hmem : (a :: b :: rest).getLast (List.cons_ne_nil _ _) ∈ b :: rest := by
      rw [List.getLast_cons (List.cons_ne_nil b rest)]
      exact List.getLast_mem _
    exact (List.pairwise_cons.mp h).1 _ hmem

/-- C5: when `load` opens a valid archive whose only descriptor is Acyclic
with non-decreasing stored times `t_0 .. t_{m-1}` (`m ≥ 1`), it returns true,
the time range is exactly `(t_0, t_{m-1})` and the frame count is the one the
context had before. -/
theorem load_acyclic_range (env : Env) (inPath : Option String) (c : aiContext)
    (ts : TimeSampling)
    (hg : ¬ (normalizePath env inPath = c.m_path ∧ c.m_archive.valid = true))
    (hp : (normalizePath env inPath).length ≠ 0)
    (ha : (openArchive env (normalizePath env inPath)).1.valid = true)
    (hts : (openArchive env (normalizePath env inPath)).1.timeSamplings = [ts])
    (hty : ts.type = aiTimeSamplingType.Acyclic)
    (hsorted : ts.getStoredTimes.Pairwise (fun x y => x ≤ y)) :
    (load env inPath c).1 = true ∧
      (load env inPath c).2.1.m_timeRange =
        (ts.firstStoredTime,
         (ts.firstStoredTime :: ts.laterStoredTimes).getLast (List.cons_ne_nil _ _)) ∧
      (load env inPath c).2.1.m_numFrames = c.m_numFrames := by
  obtain ⟨hret, hctx⟩ := load_opened env inPath c hg hp ha
  refine ⟨hret, ?_, ?_⟩
  · rw [hctx]
    show collapseRange _ = _
    rw [hts]
    have hscan : (scanTimeSamplings ((dblMax, -dblMax), c.m_numFrames) [ts]).1
        = timeSamplingRange ts := by
      simp [scanTimeSamplings, scanStep_fst]
    rw [hscan, timeSamplingRange_acyclic ts hty]
    exact collapseRange_of_le _ (head_le_getLast _ _ hsorted)
  · rw [hctx]
    show (scanTimeSamplings _ _).2 = _
    rw [hts]
    simp [scanTimeSamplings, scanStep_snd_acyclic _ ts hty]

/-- Witness of C5: the stored times 0.0, 0.1, 0.5, 2.0 load as (0.0, 2.0). -/
theorem load_acyclic_range_witness :
    (load (exEnv fun _ => some (exArchive [exAcyclic 0 [1 / 10, 1 / 2, 2]]))
        (some "a.abc") (aiContext.new (exEnv fun _ => none) 1)).1 = true ∧
    (load (exEnv fun _ => some (exArchive [exAcyclic 0 [1 / 10, 1 / 2, 2]]))
        (some "a.abc") (aiContext.new (exEnv fun _ => none) 1)).2.1.m_timeRange = (0, 2) ∧
    (load (exEnv fun _ => some (exArchive [exAcyclic 0 [1 / 10, 1 / 2, 2]]))
        (some "a.abc") (aiContext.new (exEnv fun _ => none) 1)).2.1.m_numFrames = 0 := by
  have h := load_acyclic_range
    (exEnv fun _ => some (exArchive [exAcyclic 0 [1 / 10, 1 / 2, 2]]))
    (some "a.abc") (aiContext.new (exEnv fun _ => none) 1) (exAcyclic 0 [1 / 10, 1 / 2, 2])
    (by decide) (by decide) rfl rfl rfl
    (by
      simp only [TimeSampling.getStoredTimes, exAcyclic]
      norm_num)
  refine ⟨h.1, ?_, h.2.2⟩
  rw [h.2.1]
  simp [exAcyclic]

/-! ## The registry -/

theorem ContextMap.find_set_self (m : ContextMap) (uid : Int) (ctx : Ptr) :
    ContextMap.find (ContextMap.set m uid ctx) uid = some ctx := by
  induction m with
  | nil => simp [ContextMap.set, ContextMap.find]
  | cons e rest ih =>
    obtain ⟨k, p⟩ := e
    unfold ContextMap.set
    by_cases h1 : uid < k
    · simp [h1, ContextMap.find]
    · by_cases h2 : uid = k
      · simp [h2, ContextMap.find]
      · have h3 : ¬ k = uid := fun h => h2 h.symm
        simp [h1, h2, h3, ContextMap.find, ih]

theorem ContextMap.count_eq_zero_of_find_none (m : ContextMap) (uid : Int)
    (h : ContextMap.find m uid = none) : ContextMap.count m uid = 0 := by
  induction m with
  | nil => rfl
  | cons e rest ih =>
    obtain ⟨k, p⟩ := e
    unfold ContextMap.find at h
    by_cases hk : k = uid
    · simp [hk] at h
    · simp only [hk, if_false] at h
      have := ih h
      unfold ContextMap.count at this ⊢
      simp [List.filter_cons, hk, this]

theorem ContextMap.count_set_of_count_zero (m : ContextMap) (uid : Int) (ctx : Ptr)
    (h : ContextMap.count m uid = 0) : ContextMap.count (ContextMap.set m uid ctx) uid = 1 := by
  induction m with
  | nil => simp [ContextMap.set, ContextMap.count]
  | cons e rest ih =>
    obtain ⟨k, p⟩ := e
    have hk : ¬ k = uid := by
      intro hk
      simp [ContextMap.count, List.filter_cons, hk] at h
    have hrest : ContextMap.count rest uid = 0 := by
      simpa [ContextMap.count, List.filter_cons, hk] using h
    have h2 : ¬ uid = k := fun h => hk h.symm
    unfold ContextMap.set
    by_cases h1 : uid < k
    · have := hrest
      simp only [ContextMap.count] at this ⊢
      simp [h1, List.filter_cons, hk, this]
    · have := ih hrest
      simp only [ContextMap.count] at this ⊢
      simp [h1, h2, List.filter_cons, hk, this]

theorem ContextMap.count_eq_one_of_find_some (m : ContextMap) (uid : Int) (ctx : Ptr)
    (hwf : ContextMap.WF m) (h : ContextMap.find m uid = some ctx) :
    ContextMap.count m uid = 1 := by
  induction m with
  | nil => simp [ContextMap.find] at h
  | cons e rest ih =>
    obtain ⟨k, p⟩ := e
    have hwf2 : (k :: rest.map Prod.fst).Pairwise (fun a b => a < b) := hwf
    obtain ⟨hlt, hrestwf⟩ := List.pairwise_cons.mp hwf2
    by_cases hk : k = uid
    · have hnone : ∀ e ∈ rest, ¬ e.1 = uid := by
        intro e he heq
        have := hlt e.1 (List.mem_map_of_mem Prod.fst he)
        omega
      have hfil : rest.filter (fun e => decide (e.1 = uid)) = [] := by
        rw [List.filter_eq_nil_iff]
        intro e he
        simpa using hnone e he
      simp [ContextMap.count, List.filter_cons, hk, hfil]
    · unfold ContextMap.find at h
      simp only [hk, if_false] at h
      have := ih hrestwf h
      simp only [ContextMap.count] at this ⊢
      simp [List.filter_cons, hk, this]

/-- C6: for every registry state and identifier, a second `create(id)` right
after the first returns the same context and leaves the whole process state
(the map and the live contexts) as the first call left it, and the map then
holds exactly one entry for the identifier. -/
theorem create_twice_same_context (env : Env) (uid : Int) (w : World)
    (hwf : ContextMap.WF w.m_contexts) :
    create env uid (create env uid w).2 = ((create env uid w).1, (create env uid w).2) ∧
      GetContext uid (create env uid w).2 = some (create env uid w).1 ∧
      ContextMap.count (create env uid w).2.m_contexts uid = 1 := by
  unfold create GetContext
  cases hfind : ContextMap.find w.m_contexts uid with
  | some ctx =>
    simp only [hfind]
    exact ⟨trivial, trivial, ContextMap.count_eq_one_of_find_some _ _ _ hwf hfind⟩
  | none =>
    simp only [World.alloc, RegisterContext, hfind, ContextMap.find_set_self]
    exact ⟨trivial, trivial,
      ContextMap.count_set_of_count_zero _ _ _
        (ContextMap.count_eq_zero_of_find_none _ _ hfind)⟩

/-- Witness of C6: in a registry holding identifiers 1 and 5, `create(3)`
twice. -/
theorem create_twice_same_context_witness :
    create (exEnv fun _ => none) 3
        (create (exEnv fun _ => none) 3
          { m_contexts := [(1, 10), (5, 11)],
            heap := [(10, exLoaded 1 "a.abc"), (11, exLoaded 5 "b.abc")],
            nextPtr := 12 }).2
      = ((create (exEnv fun _ => none) 3
          { m_contexts := [(1, 10), (5, 11)],
            heap := [(10, exLoaded 1 "a.abc"), (11, exLoaded 5 "b.abc")],
            nextPtr := 12 }).1,
         (create (exEnv fun _ => none) 3
          { m_contexts := [(1, 10), (5, 11)],
            heap := [(10, exLoaded 1 "a.abc"), (11, exLoaded 5 "b.abc")],
            nextPtr := 12 }).2) ∧
    (create (exEnv fun _ => none) 3
          { m_contexts := [(1, 10), (5, 11)],
            heap := [(10, exLoaded 1 "a.abc"), (11, exLoaded 5 "b.abc")],
            nextPtr := 12 }).2.m_contexts = [(1, 10), (3, 12), (5, 11)] :=
  ⟨(create_twice_same_context (exEnv fun _ => none) 3
      { m_contexts := [(1, 10), (5, 11)],
        heap := [(10, exLoaded 1 "a.abc"), (11, exLoaded 5 "b.abc")],
        nextPtr := 12 }
      (by simp [ContextMap.WF])).1, by decide⟩

/-- When no registered context has the path, the loop of
`clearContextsWithPath` returns normally and changes nothing. -/
theorem clearLoop_done_of_no_match (path : String) (l : List (Int × Ptr)) (w : World)
    (h : ∀ e ∈ l, ∃ c, w.heap.lookup e.2 = some c ∧ c.m_path ≠ path) :
    clearLoop path l w = Outcome.done w := by
  induction l with
  | nil => rfl
  | cons e rest ih =>
    obtain ⟨uid, ctx⟩ := e
    obtain ⟨c, hc, hne⟩ := h (uid, ctx) (List.mem_cons_self _ _)
    have hc2 : List.lookup ctx w.heap = some c := hc
    unfold clearLoop
    simp only [hc2, hne, if_false]
    exact ih fun e he => h e (List.mem_cons_of_mem _ he)

/-- As soon as one registered context has the path, the loop of
`clearContextsWithPath` reaches undefined behaviour. -/
theorem clearLoop_undefined_of_match (path : String) (l : List (Int × Ptr)) (w : World)
    (h : ∃ e ∈ l, ∃ c, w.heap.lookup e.2 = some c ∧ c.m_path = path) :
    (clearLoop path l w).isUndefined = true := by
  induction l with
  | nil =>
    obtain ⟨e, he, _⟩ := h
    cases he
  | cons e0 rest ih =>
    obtain ⟨uid, ctx⟩ := e0
    unfold clearLoop
    cases hl : List.lookup ctx w.heap with
    | none => rfl
    | some c0 =>
      by_cases hm : c0.m_path = path
      · simp only [hm, if_true]
        rfl
      · simp only [hm, if_false]
        apply ih
        obtain ⟨e, he, c, hc, hpath⟩ := h
        rcases List.mem_cons.mp he with rfl | he
        · have hc2 : List.lookup ctx w.heap = some c := hc
          rw [hl] at hc2
          cases hc2
          exact absurd hpath hm
        · exact ⟨e, he, c, hc, hpath⟩

/-- C7 (fails on the code): with identifiers 1 and 2 on `a.abc` and 3 on
`b.abc`, `clearContextsWithPath("a.abc")` deletes the context of identifier 1,
erases its entry and then increments the erased iterator: the execution is
undefined from a state in which identifier 2, whose path matches as well, is
still registered. -/
theorem clearContextsWithPath_undefined_after_first_match :
    (clearContextsWithPath (exEnv fun _ => none) (some "a.abc") exWorld).isUndefined = true ∧
    (clearContextsWithPath (exEnv fun _ => none) (some "a.abc") exWorld).state.m_contexts
      = [(2, 11), (3, 12)] := by
  decide

/-! ## The idempotent-reload guard and load failure -/

theorem ne_empty_of_length_ne_zero (s : String) (h : s.length ≠ 0) : s ≠ "" := by
  rintro rfl
  exact h rfl

theorem eq_empty_of_length_eq_zero (s : String) (h : s.length = 0) : s = "" := by
  cases s with
  | mk data =>
    have hd : data = [] := List.length_eq_zero.mp h
    subst hd
    rfl

/-- A `load` that returns true leaves a valid handle stored under the
normalised path. -/
theorem load_true_valid_path (env : Env) (inPath : Option String) (c : aiContext)
    (h : (load env inPath c).1 = true) :
    (load env inPath c).2.1.m_archive.valid = true ∧
      (load env inPath c).2.1.m_path = normalizePath env inPath := by
  by_cases hg : normalizePath env inPath = c.m_path ∧ c.m_archive.valid = true
  · rw [load_guard env inPath c hg]
    exact ⟨hg.2, hg.1.symm⟩
  · by_cases hp : (normalizePath env inPath).length = 0
    · rw [load_empty_path env inPath c hg hp] at h
      cases h
    · cases ha : (openArchive env (normalizePath env inPath)).1.valid with
      | false =>
        rw [(load_open_failed env inPath c hg hp ha).1] at h
        cases h
      | true =>
        rw [(load_opened env inPath c hg hp ha).2]
        exact ⟨ha, rfl⟩

/-- C8: when the handle is valid and the stored path is the normalised `p`
(as a successful `load(p)` leaves them), `load(p)` returns true, has no
effect at all (in particular no backend open attempt) and leaves every
member of the context unchanged. -/
theorem load_same_path_noop (env : Env) (inPath : Option String) (c : aiContext)
    (hv : c.m_archive.valid = true) (hpath : c.m_path = normalizePath env inPath) :
    (load env inPath c).1 = true ∧ (load env inPath c).2.1 = c ∧
      (load env inPath c).2.2 = [] ∧
      (∀ p, Event.openOgawa p ∉ (load env inPath c).2.2 ∧
        Event.openHDF5 p ∉ (load env inPath c).2.2) := by
  rw [load_guard env inPath c ⟨hpath.symm, hv⟩]
  simp

/-- Witness of C8: `load("a.abc")` twice in a row: the first call opens the
archive with one Ogawa attempt, the second returns true without any effect. -/
theorem load_same_path_noop_witness :
    (load (exEnv fun _ => some (exArchive [exUniform 0 (1 / 24) 240])) (some "a.abc")
        (aiContext.new (exEnv fun _ => none) 1)).1 = true ∧
    load (exEnv fun _ => some (exArchive [exUniform 0 (1 / 24) 240])) (some "a.abc")
        (load (exEnv fun _ => some (exArchive [exUniform 0 (1 / 24) 240])) (some "a.abc")
          (aiContext.new (exEnv fun _ => none) 1)).2.1
      = (true,
         (load (exEnv fun _ => some (exArchive [exUniform 0 (1 / 24) 240])) (some "a.abc")
          (aiContext.new (exEnv fun _ => none) 1)).2.1, []) := by
  have h1 : (load (exEnv fun _ => some (exArchive [exUniform 0 (1 / 24) 240])) (some "a.abc")
      (aiContext.new (exEnv fun _ => none) 1)).1 = true :=
    (load_opened (exEnv fun _ => some (exArchive [exUniform 0 (1 / 24) 240])) (some "a.abc")
      (aiContext.new (exEnv fun _ => none) 1) (by decide) (by decide) rfl).1
  have hvp := load_true_valid_path _ _ _ h1
  have h2 := load_same_path_noop
    (exEnv fun _ => some (exArchive [exUniform 0 (1 / 24) 240])) (some "a.abc")
    (load (exEnv fun _ => some (exArchive [exUniform 0 (1 / 24) 240])) (some "a.abc")
      (aiContext.new (exEnv fun _ => none) 1)).2.1 hvp.1 hvp.2
  exact ⟨h1, Prod.ext h2.1 (Prod.ext h2.2.1 h2.2.2.1)⟩

/-- C10: when the idempotent-reload guard does not apply and the normalised
path is empty (a null input included) or the handle left by the codec
attempts is not valid, `load` returns false and the context is Empty; and
whenever `load` returns true the context ends with a valid handle. -/
theorem load_failure_leaves_empty (env : Env) (inPath : Option String) (c : aiContext) :
    (¬ (normalizePath env inPath = c.m_path ∧ c.m_archive.valid = true) →
      ((normalizePath env inPath).length = 0 ∨
        (openArchive env (normalizePath env inPath)).1.valid = false) →
      (load env inPath c).1 = false ∧ (load env inPath c).2.1.Empty) ∧
    ((load env inPath c).1 = true → (load env inPath c).2.1.m_archive.valid = true) := by
  refine ⟨fun hg hf => ?_, fun h => (load_true_valid_path env inPath c h).1⟩
  have hreset : (reset c).1.Empty := ⟨rfl, rfl, rfl, rfl⟩
  by_cases hp : (normalizePath env inPath).length = 0
  · rw [load_empty_path env inPath c hg hp]
    exact ⟨rfl, hreset⟩
  · rcases hf with hf | hf
    · exact absurd hf hp
    · obtain ⟨hret, hctx⟩ := load_open_failed env inPath c hg hp hf
      rw [hctx]
      exact ⟨hret, hreset⟩

/-- Witness of C10: on a loaded context, a path that both codecs reject, the
empty path and a null path each make `load` return false and leave the
context Empty. -/
theorem load_failure_leaves_empty_witness :
    ((load (exEnv fun _ => none) (some "missing.abc") (exLoaded 1 "a.abc")).1 = false ∧
      (load (exEnv fun _ => none) (some "missing.abc") (exLoaded 1 "a.abc")).2.1.Empty) ∧
    ((load (exEnv fun _ => none) (some "") (exLoaded 1 "a.abc")).1 = false ∧
      (load (exEnv fun _ => none) (some "") (exLoaded 1 "a.abc")).2.1.Empty) ∧
    ((load (exEnv fun _ => none) none (exLoaded 1 "a.abc")).1 = false ∧
      (load (exEnv fun _ => none) none (exLoaded 1 "a.abc")).2.1.Empty) :=
  ⟨(load_failure_leaves_empty (exEnv fun _ => none) (some "missing.abc")
      (exLoaded 1 "a.abc")).1 (by decide) (Or.inr rfl),
   (load_failure_leaves_empty (exEnv fun _ => none) (some "")
      (exLoaded 1 "a.abc")).1 (by decide) (Or.inl rfl),
   (load_failure_leaves_empty (exEnv fun _ => none) none
      (exLoaded 1 "a.abc")).1 (by decide) (Or.inl rfl)⟩

/-! ## The lifecycle invariant -/

theorem allOrNone_new (env : Env) (uid : Int) : (aiContext.new env uid).AllOrNone := by
  refine ⟨⟨fun h => ?_, fun h => ?_⟩, ⟨fun h => ?_, fun h => ?_⟩⟩
  · cases h
  · cases h
  · cases h
  · exact absurd rfl h

theorem allOrNone_reset (c : aiContext) : (reset c).1.AllOrNone := by
  refine ⟨⟨fun h => ?_, fun h => ?_⟩, ⟨fun h => ?_, fun h => ?_⟩⟩
  · cases h
  · cases h
  · cases h
  · exact absurd rfl h

theorem coherent_of_allOrNone (c : aiContext) (h : c.AllOrNone) : c.Coherent :=
  ⟨h.2, h.1.mp⟩

theorem coherent_new (env : Env) (uid : Int) : (aiContext.new env uid).Coherent :=
  coherent_of_allOrNone _ (allOrNone_new env uid)

/-- After `load`, whatever it returns, the three conditions agree, provided
they agreed before (needed only when the guard makes `load` a no-op). -/
theorem allOrNone_load (env : Env) (inPath : Option String) (c : aiContext)
    (h : c.AllOrNone) : (load env inPath c).2.1.AllOrNone := by
  by_cases hg : normalizePath env inPath = c.m_path ∧ c.m_archive.valid = true
  · rw [load_guard env inPath c hg]
    exact h
  · by_cases hp : (normalizePath env inPath).length = 0
    · rw [load_empty_path env inPath c hg hp]
      exact allOrNone_reset c
    · cases ha : (openArchive env (normalizePath env inPath)).1.valid with
      | false =>
        rw [(load_open_failed env inPath c hg hp ha).2]
        exact allOrNone_reset c
      | true =>
        rw [(load_opened env inPath c hg hp ha).2]
        exact ⟨⟨fun _ => ha, fun _ => rfl⟩,
          ⟨fun _ => ne_empty_of_length_ne_zero _ hp, fun _ => ha⟩⟩

theorem coherent_load (env : Env) (inPath : Option String) (c : aiContext)
    (h : c.Coherent) : (load env inPath c).2.1.Coherent := by
  by_cases hg : normalizePath env inPath = c.m_path ∧ c.m_archive.valid = true
  · rw [load_guard env inPath c hg]
    exact h
  · by_cases hp : (normalizePath env inPath).length = 0
    · rw [load_empty_path env inPath c hg hp]
      exact coherent_of_allOrNone _ (allOrNone_reset c)
    · cases ha : (openArchive env (normalizePath env inPath)).1.valid with
      | false =>
        rw [(load_open_failed env inPath c hg hp ha).2]
        exact coherent_of_allOrNone _ (allOrNone_reset c)
      | true =>
        rw [(load_opened env inPath c hg hp ha).2]
        exact ⟨⟨fun _ => ne_empty_of_length_ne_zero _ hp, fun _ => ha⟩, fun _ => ha⟩

theorem coherent_applyOp (env : Env) (op : Op) (c : aiContext) (h : c.Coherent) :
    (applyOp env op c).Coherent := by
  cases op with
  | load inPath => exact coherent_load env inPath c h
  | reset => exact coherent_of_allOrNone _ (allOrNone_reset c)
  | setConfig config => exact h
  | destroyObject del objIsTop =>
    cases objIsTop with
    | true =>
      refine ⟨h.1, fun hs => ?_⟩
      cases hs
    | false =>
      refine ⟨h.1, fun hs => h.2 ?_⟩
      have hs2 : (c.m_top_node.map del).isSome = true := hs
      simpa using hs2
  | cacheAllSamples => exact h
  | cacheSamples s e => exact h
  | updateSamples t => exact h

theorem allOrNone_applyOp (env : Env) (op : Op) (c : aiContext) (h : c.AllOrNone)
    (hop : op.destroysTop = false) : (applyOp env op c).AllOrNone := by
  cases op with
  | load inPath => exact allOrNone_load env inPath c h
  | reset => exact allOrNone_reset c
  | setConfig config => exact h
  | destroyObject del objIsTop =>
    cases objIsTop with
    | true => cases hop
    | false =>
      refine ⟨⟨fun hs => h.1.mp ?_, fun hv => ?_⟩, h.2⟩
      · have hs2 : (c.m_top_node.map del).isSome = true := hs
        simpa using hs2
      · have hs := h.1.mpr hv
        show (c.m_top_node.map del).isSome = true
        simpa using hs
  | cacheAllSamples => exact h
  | cacheSamples s e => exact h
  | updateSamples t => exact h

theorem coherent_runOps (env : Env) (ops : List Op) (c : aiContext) (h : c.Coherent) :
    (runOps env ops c).Coherent := by
  induction ops generalizing c with
  | nil => exact h
  | cons op rest ih => exact ih _ (coherent_applyOp env op c h)

theorem allOrNone_runOps (env : Env) (ops : List Op) (c : aiContext) (h : c.AllOrNone)
    (hops : ∀ op ∈ ops, op.destroysTop = false) : (runOps env ops c).AllOrNone := by
  induction ops generalizing c with
  | nil => exact h
  | cons op rest ih =>
    exact ih _ (allOrNone_applyOp env op c h (hops op (List.mem_cons_self _ _)))
      fun o ho => hops o (List.mem_cons_of_mem _ ho)

/-- C9 (as amended): starting from a freshly created context, after every
sequence of public operations the handle is valid exactly when the path is
non-empty and a top node is present only then; when no operation of the
sequence is `destroyObject` on the top node, the three conditions are all
true or all false. -/
theorem lifecycle_invariant (env : Env) (uid : Int) (ops : List Op) :
    (runOps env ops (aiContext.new env uid)).Coherent ∧
      ((∀ op ∈ ops, op.destroysTop = false) →
        (runOps env ops (aiContext.new env uid)).AllOrNone) :=
  ⟨coherent_runOps env ops _ (coherent_new env uid),
   fun hops => allOrNone_runOps env ops _ (allOrNone_new env uid) hops⟩

/-- Witness of C9 (as amended): after `load("a.abc")`, `cacheAllSamples` and
`updateSamples(0)` the three conditions agree. -/
theorem lifecycle_invariant_witness :
    (runOps (exEnv fun _ => some (exArchive [exUniform 0 (1 / 24) 240]))
      [Op.load (some "a.abc"), Op.cacheAllSamples, Op.updateSamples 0]
      (aiContext.new (exEnv fun _ => some (exArchive [exUniform 0 (1 / 24) 240])) 1)).AllOrNone :=
  (lifecycle_invariant (exEnv fun _ => some (exArchive [exUniform 0 (1 / 24) 240])) 1
    [Op.load (some "a.abc"), Op.cacheAllSamples, Op.updateSamples 0]).2
    (by
      intro op hop
      simp only [List.mem_cons, List.mem_singleton, List.not_mem_nil, or_false] at hop
      rcases hop with rfl | rfl | rfl <;> rfl)

/-- C9 (fails on the code): after a successful `load("a.abc")`, calling
`destroyObject` on the top node leaves no top node while the handle is still
valid and the path is still `a.abc`. -/
theorem destroyObject_top_breaks_invariant :
    (runOps (exEnv fun _ => some (exArchive [exUniform 0 (1 / 24) 240]))
      [Op.load (some "a.abc"), Op.destroyObject id true]
      (aiContext.new (exEnv fun _ => some (exArchive [exUniform 0 (1 / 24) 240])) 1)).m_top_node
        = none ∧
    (runOps (exEnv fun _ => some (exArchive [exUniform 0 (1 / 24) 240]))
      [Op.load (some "a.abc"), Op.destroyObject id true]
      (aiContext.new (exEnv fun _ => some (exArchive [exUniform 0 (1 / 24) 240])) 1)).m_archive.valid
        = true ∧
    (runOps (exEnv fun _ => some (exArchive [exUniform 0 (1 / 24) 240]))
      [Op.load (some "a.abc"), Op.destroyObject id true]
      (aiContext.new (exEnv fun _ => some (exArchive [exUniform 0 (1 / 24) 240])) 1)).m_path
        = "a.abc" ∧
    ¬ (runOps (exEnv fun _ => some (exArchive [exUniform 0 (1 / 24) 240]))
      [Op.load (some "a.abc"), Op.destroyObject id true]
      (aiContext.new (exEnv fun _ => some (exArchive [exUniform 0 (1 / 24) 240])) 1)).AllOrNone := by
  have hA := load_opened (exEnv fun _ => some (exArchive [exUniform 0 (1 / 24) 240]))
    (some "a.abc") (aiContext.new (exEnv fun _ => some (exArchive [exUniform 0 (1 / 24) 240])) 1)
    (by decide) (by decide) rfl
  have e : ∀ env c, runOps env [Op.load (some "a.abc"), Op.destroyObject id true] c
      = (destroyObject id true (load env (some "a.abc") c).2.1).1 := fun _ _ => rfl
  rw [e, hA.2]
  refine ⟨rfl, rfl, rfl, ?_⟩
  intro h
  have := h.1.mpr rfl
  cases this

/-! ## `reset` -/

theorem reset_empty (c : aiContext) : (reset c).1.Empty :=
  ⟨rfl, rfl, rfl, rfl⟩

theorem reset_eq_self_of_empty (c : aiContext) (h : c.Empty) (hnull : c.NullWhenInvalid) :
    (reset c).1 = c := by
  obtain ⟨hpath, hvalid, htop, hrange⟩ := h
  have harch := hnull hvalid
  cases c with
  | mk uid path archive top range frames config =>
    simp only at hpath htop hrange harch
    subst hpath htop hrange harch
    rfl

theorem nullWhenInvalid_new (env : Env) (uid : Int) : (aiContext.new env uid).NullWhenInvalid :=
  fun _ => rfl

theorem nullWhenInvalid_reset (c : aiContext) : (reset c).1.NullWhenInvalid :=
  fun _ => rfl

theorem nullWhenInvalid_load (env : Env) (inPath : Option String) (c : aiContext)
    (h : c.NullWhenInvalid) : (load env inPath c).2.1.NullWhenInvalid := by
  by_cases hg : normalizePath env inPath = c.m_path ∧ c.m_archive.valid = true
  · rw [load_guard env inPath c hg]
    exact h
  · by_cases hp : (normalizePath env inPath).length = 0
    · rw [load_empty_path env inPath c hg hp]
      exact nullWhenInvalid_reset c
    · cases ha : (openArchive env (normalizePath env inPath)).1.valid with
      | false =>
        rw [(load_open_failed env inPath c hg hp ha).2]
        exact nullWhenInvalid_reset c
      | true =>
        rw [(load_opened env inPath c hg hp ha).2]
        intro hinv
        have hv : (openArchive env (normalizePath env inPath)).1.valid = false := hinv
        rw [ha] at hv
        cases hv

theorem nullWhenInvalid_applyOp (env : Env) (op : Op) (c : aiContext)
    (h : c.NullWhenInvalid) : (applyOp env op c).NullWhenInvalid := by
  cases op with
  | load inPath => exact nullWhenInvalid_load env inPath c h
  | reset => exact nullWhenInvalid_reset c
  | setConfig config => exact h
  | destroyObject del objIsTop =>
    cases objIsTop with
    | true => exact h
    | false => exact h
  | cacheAllSamples => exact h
  | cacheSamples s e => exact h
  | updateSamples t => exact h

/-- In every state a context reaches from its construction, an invalid handle
is the default-constructed one. -/
theorem nullWhenInvalid_runOps (env : Env) (ops : List Op) (c : aiContext)
    (h : c.NullWhenInvalid) : (runOps env ops c).NullWhenInvalid := by
  induction ops generalizing c with
  | nil => exact h
  | cons op rest ih => exact ih _ (nullWhenInvalid_applyOp env op c h)

/-- On every Empty state a context reaches from its construction, `reset`
returns the very same context. -/
theorem reset_reachable_empty_eq_self (env : Env) (uid : Int) (ops : List Op)
    (h : (runOps env ops (aiContext.new env uid)).Empty) :
    (reset (runOps env ops (aiContext.new env uid))).1 = runOps env ops (aiContext.new env uid) :=
  reset_eq_self_of_empty _ h (nullWhenInvalid_runOps env ops _ (nullWhenInvalid_new env uid))

/-- C11: `reset()` on an Empty context leaves `m_uid`, `m_path`, `m_top_node`,
`m_timeRange`, `m_numFrames` and `m_config` as they were and the handle
invalid as it was (an invalid handle holds no archive; when it is the
default-constructed handle, as in every state a context reaches, the whole
context is equal to the one before); and from any state `reset()` ends in the
Empty state. -/
theorem reset_on_empty_noop (c : aiContext) :
    (c.Empty →
      (reset c).1.m_uid = c.m_uid ∧ (reset c).1.m_path = c.m_path ∧
      (reset c).1.m_top_node = c.m_top_node ∧ (reset c).1.m_timeRange = c.m_timeRange ∧
      (reset c).1.m_numFrames = c.m_numFrames ∧ (reset c).1.m_config = c.m_config ∧
      (reset c).1.m_archive.valid = c.m_archive.valid ∧
      (c.NullWhenInvalid → (reset c).1 = c)) ∧
    (reset c).1.Empty := by
  refine ⟨fun h => ?_, reset_empty c⟩
  obtain ⟨hpath, hvalid, htop, hrange⟩ := h
  exact ⟨rfl, hpath.symm, htop.symm, hrange.symm, rfl, rfl, hvalid.symm,
    fun hnull => reset_eq_self_of_empty c ⟨hpath, hvalid, htop, hrange⟩ hnull⟩

/-- Witness of C11: `reset()` on a freshly constructed context, which is
Empty, returns the same context. -/
theorem reset_on_empty_noop_witness :
    (aiContext.new (exEnv fun _ => none) 1).Empty ∧
    (reset (aiContext.new (exEnv fun _ => none) 1)).1 = aiContext.new (exEnv fun _ => none) 1 ∧
    (reset (exLoaded 1 "a.abc")).1.Empty :=
  ⟨⟨rfl, rfl, rfl, rfl⟩,
   ((reset_on_empty_noop (aiContext.new (exEnv fun _ => none) 1)).1
      ⟨rfl, rfl, rfl, rfl⟩).2.2.2.2.2.2.2 (fun _ => rfl),
   (reset_on_empty_noop (exLoaded 1 "a.abc")).2⟩

/-! ## Order of the stored time range -/

theorem collapseRange_ordered (r : ℚ × ℚ) : (collapseRange r).1 ≤ (collapseRange r).2 := by
  unfold collapseRange
  by_cases h : r.1 > r.2
  · rw [if_pos h]
  · rw [if_neg h]
    exact not_lt.mp h

theorem collapseRange_of_gt (r : ℚ × ℚ) (h : r.1 > r.2) : collapseRange r = (0, 0) := by
  unfold collapseRange
  rw [if_pos h]

/-- After `load` the stored range is ordered, provided it was ordered before
whenever the handle was valid (needed only when the guard makes `load` a
no-op). -/
theorem load_timeRange_ordered_of_inv (env : Env) (inPath : Option String) (c : aiContext)
    (h : c.RangeOrderedWhenValid) :
    (load env inPath c).2.1.m_timeRange.1 ≤ (load env inPath c).2.1.m_timeRange.2 := by
  by_cases hg : normalizePath env inPath = c.m_path ∧ c.m_archive.valid = true
  · rw [load_guard env inPath c hg]
    exact h hg.2
  · by_cases hp : (normalizePath env inPath).length = 0
    · rw [load_empty_path env inPath c hg hp]
      exact le_refl (0 : ℚ)
    · cases ha : (openArchive env (normalizePath env inPath)).1.valid with
      | false =>
        rw [(load_open_failed env inPath c hg hp ha).2]
        exact le_refl (0 : ℚ)
      | true =>
        rw [(load_opened env inPath c hg hp ha).2]
        exact collapseRange_ordered _

theorem rangeOrdered_applyOp (env : Env) (op : Op) (c : aiContext)
    (h : c.RangeOrderedWhenValid) : (applyOp env op c).RangeOrderedWhenValid := by
  cases op with
  | load inPath => exact fun _ => load_timeRange_ordered_of_inv env inPath c h
  | reset =>
    intro hv
    cases hv
  | setConfig config => exact h
  | destroyObject del objIsTop =>
    cases objIsTop with
    | true => exact h
    | false => exact h
  | cacheAllSamples => exact h
  | cacheSamples s e => exact h
  | updateSamples t => exact h

theorem rangeOrdered_runOps (env : Env) (ops : List Op) (c : aiContext)
    (h : c.RangeOrderedWhenValid) : (runOps env ops c).RangeOrderedWhenValid := by
  induction ops generalizing c with
  | nil => exact h
  | cons op rest ih => exact ih _ (rangeOrdered_applyOp env op c h)

theorem rangeOrdered_new (env : Env) (uid : Int) :
    (aiContext.new env uid).RangeOrderedWhenValid := by
  intro hv
  cases hv

theorem scanStepIEEE_toIEEE (st : (ℚ × ℚ) × Int) (ts : TimeSampling) :
    scanStepIEEE (IEEEDouble.num st.1.1, IEEEDouble.num st.1.2) ts.toIEEE
      = (IEEEDouble.num (scanStep st ts).1.1, IEEEDouble.num (scanStep st ts).1.2) := by
  have hget : ∀ i : Nat, ts.toIEEE.getSampleTime i = IEEEDouble.num (ts.getSampleTime i) := by
    intro i
    show (IEEEDouble.num ts.firstStoredTime :: ts.laterStoredTimes.map IEEEDouble.num).getD i
        (IEEEDouble.num ts.firstStoredTime)
      = IEEEDouble.num ((ts.firstStoredTime :: ts.laterStoredTimes).getD i ts.firstStoredTime)
    rw [← List.map_cons, List.getD_map]
  have hlen : (ts.toIEEE.firstStoredTime :: ts.toIEEE.laterStoredTimes).length
      = ts.getNumStoredTimes := by
    simp [TimeSampling.toIEEE, TimeSampling.getNumStoredTimes, TimeSampling.getStoredTimes]
  have hcyc : ts.toIEEE.numCycles = numCycles ts := rfl
  have hty : ts.toIEEE.type = ts.type := rfl
  unfold scanStepIEEE scanStep
  rw [hlen, hget, hget, hcyc, hty]
  cases h : ts.type <;>
    simp [TimeSampling.toIEEE, IEEEDouble.add, IEEEDouble.mul]

theorem foldl_scanStepIEEE_toIEEE (tss : List TimeSampling) (st : (ℚ × ℚ) × Int) :
    (tss.map TimeSampling.toIEEE).foldl scanStepIEEE
        (IEEEDouble.num st.1.1, IEEEDouble.num st.1.2)
      = (IEEEDouble.num (scanTimeSamplings st tss).1.1,
         IEEEDouble.num (scanTimeSamplings st tss).1.2) := by
  induction tss generalizing st with
  | nil => rfl
  | cons t rest ih =>
    rw [List.map_cons, List.foldl_cons, scanStepIEEE_toIEEE st t, ih (scanStep st t)]
    rfl

theorem collapseRangeIEEE_num (r : ℚ × ℚ) :
    collapseRangeIEEE (IEEEDouble.num r.1, IEEEDouble.num r.2)
      = (IEEEDouble.num (collapseRange r).1, IEEEDouble.num (collapseRange r).2) := by
  unfold collapseRangeIEEE collapseRange IEEEDouble.gt
  by_cases h : r.1 > r.2 <;> simp [h]

/-- On time samplings whose times are all numbers, the range computation
with IEEE comparison stores the range that `load` stores. -/
theorem loadTimeRangeIEEE_toIEEE (tss : List TimeSampling) (n : Int) :
    loadTimeRangeIEEE (tss.map TimeSampling.toIEEE)
      = (IEEEDouble.num (collapseRange (scanTimeSamplings ((dblMax, -dblMax), n) tss).1).1,
         IEEEDouble.num (collapseRange (scanTimeSamplings ((dblMax, -dblMax), n) tss).1).2) := by
  unfold loadTimeRangeIEEE
  rw [foldl_scanStepIEEE_toIEEE tss ((dblMax, -dblMax), n)]
  exact collapseRangeIEEE_num _

/-- Whatever the time samplings hold, NaN included, the stored range never
has start > end. -/
theorem loadTimeRangeIEEE_not_gt (tss : List TimeSamplingIEEE) :
    (loadTimeRangeIEEE tss).1.gt (loadTimeRangeIEEE tss).2 = false := by
  unfold loadTimeRangeIEEE collapseRangeIEEE
  generalize tss.foldl scanStepIEEE (IEEEDouble.num dblMax, IEEEDouble.num (-dblMax)) = r
  by_cases h : r.1.gt r.2 = true
  · rw [if_pos h]
    decide
  · rw [if_neg h]
    simpa using h

/-- C15 (as amended): for archives whose stored times and times per cycle are
finite numbers (no NaN, no infinity), after every call to `load` on a context in any state it
reaches from its construction, whatever `load` returns and whatever
descriptors the archive has, the stored time range has start <= end; and
whenever `load` opens an archive and the scan of its descriptors leaves
start > end, the stored range is exactly (0, 0). -/
theorem load_timeRange_ordered (env : Env) (uid : Int) (ops : List Op)
    (inPath : Option String) :
    (load env inPath (runOps env ops (aiContext.new env uid))).2.1.m_timeRange.1 ≤
      (load env inPath (runOps env ops (aiContext.new env uid))).2.1.m_timeRange.2 ∧
    (∀ c : aiContext,
      ¬ (normalizePath env inPath = c.m_path ∧ c.m_archive.valid = true) →
      (normalizePath env inPath).length ≠ 0 →
      (openArchive env (normalizePath env inPath)).1.valid = true →
      (scanTimeSamplings ((dblMax, -dblMax), c.m_numFrames)
          (openArchive env (normalizePath env inPath)).1.timeSamplings).1.1 >
        (scanTimeSamplings ((dblMax, -dblMax), c.m_numFrames)
          (openArchive env (normalizePath env inPath)).1.timeSamplings).1.2 →
      (load env inPath c).2.1.m_timeRange = (0, 0)) := by
  refine ⟨load_timeRange_ordered_of_inv env inPath _
    (rangeOrdered_runOps env ops _ (rangeOrdered_new env uid)), ?_⟩
  intro c hg hp ha hgt
  rw [(load_opened env inPath c hg hp ha).2]
  exact collapseRange_of_gt _ hgt

/-- Witness of C15 (as amended): an archive without descriptors, and an
archive whose only descriptor is Uniform with no stored sample
(`numCycles = 0`, interval 1), both load with range (0, 0). -/
theorem load_timeRange_ordered_witness :
    (load (exEnv fun _ => some (exArchive [])) (some "a.abc")
        (aiContext.new (exEnv fun _ => none) 1)).2.1.m_timeRange = (0, 0) ∧
    (load (exEnv fun _ => some (exArchive [exUniform 3 1 0])) (some "a.abc")
        (aiContext.new (exEnv fun _ => none) 1)).2.1.m_timeRange = (0, 0) := by
  refine ⟨?_, ?_⟩
  · refine (load_timeRange_ordered (exEnv fun _ => some (exArchive [])) 1 []
      (some "a.abc")).2 (aiContext.new (exEnv fun _ => none) 1) (by decide) (by decide) rfl ?_
    show (dblMax : ℚ) > -dblMax
    norm_num [dblMax]
  · refine (load_timeRange_ordered (exEnv fun _ => some (exArchive [exUniform 3 1 0])) 1 []
      (some "a.abc")).2 (aiContext.new (exEnv fun _ => none) 1) (by decide) (by decide) rfl ?_
    have h0 : toInt32 (numCycles (exUniform 3 1 0) - 1) = -1 := by decide
    have hr := timeSamplingRange_uniform_cyclic (exUniform 3 1 0) (Or.inl rfl)
    rw [h0] at hr
    show (scanTimeSamplings _ [exUniform 3 1 0]).1.1 > (scanTimeSamplings _ [exUniform 3 1 0]).1.2
    simp only [scanTimeSamplings, List.foldl, scanStep_fst, hr]
    simp only [exUniform]
    norm_num

/-- C15 (fails on the code): for an archive whose only descriptor is Acyclic
with the single stored time NaN, lines 406-407 store (NaN, NaN), the test
`m_timeRange[0] > m_timeRange[1]` of line 411 is false, and the range stays
(NaN, NaN), for which start <= end is false. -/
theorem load_timeRange_unordered_on_nan :
    loadTimeRangeIEEE [exNaNAcyclic] = (IEEEDouble.nan, IEEEDouble.nan) ∧
    (loadTimeRangeIEEE [exNaNAcyclic]).1.le (loadTimeRangeIEEE [exNaNAcyclic]).2 = false := by
  decide

/-! ## The frame count never decreases -/

theorem scanStep_snd_ge (st : (ℚ × ℚ) × Int) (ts : TimeSampling) :
    st.2 ≤ (scanStep st ts).2 := by
  unfold scanStep
  split_ifs <;> first | omega | (dsimp only; omega)

theorem scanTimeSamplings_snd_ge (tss : List TimeSampling) (st : (ℚ × ℚ) × Int) :
    st.2 ≤ (scanTimeSamplings st tss).2 := by
  induction tss generalizing st with
  | nil => exact le_refl _
  | cons t rest ih =>
    exact le_trans (scanStep_snd_ge st t) (ih (scanStep st t))

theorem load_numFrames_ge (env : Env) (inPath : Option String) (c : aiContext) :
    c.m_numFrames ≤ (load env inPath c).2.1.m_numFrames := by
  by_cases hg : normalizePath env inPath = c.m_path ∧ c.m_archive.valid = true
  · rw [load_guard env inPath c hg]
  · by_cases hp : (normalizePath env inPath).length = 0
    · rw [load_empty_path env inPath c hg hp]
      exact le_refl _
    · cases ha : (openArchive env (normalizePath env inPath)).1.valid with
      | false =>
        rw [(load_open_failed env inPath c hg hp ha).2]
        exact le_refl _
      | true =>
        rw [(load_opened env inPath c hg hp ha).2]
        exact scanTimeSamplings_snd_ge _ ((dblMax, -dblMax), c.m_numFrames)

theorem load_false_numFrames (env : Env) (inPath : Option String) (c : aiContext)
    (h : (load env inPath c).1 = false) :
    (load env inPath c).2.1.m_numFrames = c.m_numFrames := by
  by_cases hg : normalizePath env inPath = c.m_path ∧ c.m_archive.valid = true
  · rw [load_guard env inPath c hg]
  · by_cases hp : (normalizePath env inPath).length = 0
    · rw [load_empty_path env inPath c hg hp]
      rfl
    · cases ha : (openArchive env (normalizePath env inPath)).1.valid with
      | false =>
        rw [(load_open_failed env inPath c hg hp ha).2]
        rfl
      | true =>
        rw [(load_opened env inPath c hg hp ha).1] at h
        cases h

/-- C18: for every context state, after `load` (successful, failed or no-op),
`reset`, `cacheAllSamples`, `cacheSamples` or `updateSamples` (and after
`setConfig` or `destroyObject` as well) the frame count is at least the frame
count before; `reset` and a `load` that returns false leave it unchanged. -/
theorem numFrames_never_decreases (env : Env) (c : aiContext) :
    (∀ op : Op, c.m_numFrames ≤ (applyOp env op c).m_numFrames) ∧
    (reset c).1.m_numFrames = c.m_numFrames ∧
    (∀ inPath, (load env inPath c).1 = false →
      (load env inPath c).2.1.m_numFrames = c.m_numFrames) := by
  refine ⟨fun op => ?_, rfl, fun inPath h => load_false_numFrames env inPath c h⟩
  cases op with
  | load inPath => exact load_numFrames_ge env inPath c
  | reset => exact le_refl _
  | setConfig config => exact le_refl _
  | destroyObject del objIsTop =>
    cases objIsTop with
    | true => exact le_refl _
    | false => exact le_refl _
  | cacheAllSamples => exact le_refl _
  | cacheSamples s e => exact le_refl _
  | updateSamples t => exact le_refl _

/-- Witness of C18: on a context with frame count 0, a `load` of 240 cycles
raises the frame count to 240 and a `load` that fails afterwards keeps 240. -/
theorem numFrames_never_decreases_witness :
    (load (exEnv fun p => if p = "a.abc" then some (exArchive [exUniform 0 (1 / 24) 240])
          else none) (some "missing.abc")
        (load (exEnv fun p => if p = "a.abc" then some (exArchive [exUniform 0 (1 / 24) 240])
          else none) (some "a.abc") (aiContext.new (exEnv fun _ => none) 1)).2.1).2.1.m_numFrames
      = (load (exEnv fun p => if p = "a.abc" then some (exArchive [exUniform 0 (1 / 24) 240])
          else none) (some "a.abc") (aiContext.new (exEnv fun _ => none) 1)).2.1.m_numFrames :=
  (numFrames_never_decreases
    (exEnv fun p => if p = "a.abc" then some (exArchive [exUniform 0 (1 / 24) 240]) else none)
    (load (exEnv fun p => if p = "a.abc" then some (exArchive [exUniform 0 (1 / 24) 240])
      else none) (some "a.abc") (aiContext.new (exEnv fun _ => none) 1)).2.1).2.2
    (some "missing.abc") (by decide)

/-! ## Barrier before release -/

theorem barrierFirst_of_head (rest : List Event) : BarrierFirst (Event.waitTasks :: rest) := by
  intro pre e post h he
  cases pre with
  | nil =>
    have hhead : Event.waitTasks = e := (List.cons.inj h).1
    subst hhead
    cases he
  | cons x pre2 =>
    have hhead : Event.waitTasks = x := (List.cons.inj h).1
    subst hhead
    exact List.mem_cons_self _ _

/-- Past the guard, the first effect of `load` is the barrier of `reset`. -/
theorem load_trace_head (env : Env) (inPath : Option String) (c : aiContext)
    (hg : ¬ (normalizePath env inPath = c.m_path ∧ c.m_archive.valid = true)) :
    ∃ rest, (load env inPath c).2.2 = Event.waitTasks :: rest := by
  unfold load
  simp only [hg, if_false]
  split_ifs <;> exact ⟨_, rfl⟩

/-- C17: in the effect traces of `reset()`, of every `load()` that gets past
the idempotent-reload guard and of the destructor, the first effect is the
barrier `waitTasks`, and every release or mutation of the node hierarchy,
the archive handle, the path or the time range has a barrier before it in
the same trace. -/
theorem barrier_before_release (env : Env) (inPath : Option String) (c : aiContext) :
    ((reset c).2.head? = some Event.waitTasks ∧ BarrierFirst (reset c).2) ∧
    (¬ (normalizePath env inPath = c.m_path ∧ c.m_archive.valid = true) →
      (load env inPath c).2.2.head? = some Event.waitTasks ∧
        BarrierFirst (load env inPath c).2.2) ∧
    (c.destructor.head? = some Event.waitTasks ∧ BarrierFirst c.destructor) := by
  refine ⟨⟨rfl, barrierFirst_of_head _⟩, fun hg => ?_, ⟨rfl, barrierFirst_of_head _⟩⟩
  obtain ⟨rest, hrest⟩ := load_trace_head env inPath c hg
  rw [hrest]
  exact ⟨rfl, barrierFirst_of_head rest⟩

/-- Witness of C17: a `load` of `b.abc` on a context loaded from `a.abc`
starts with the barrier, before the old hierarchy and handle are released. -/
theorem barrier_before_release_witness :
    (load (exEnv fun _ => some (exArchive [exUniform 0 (1 / 24) 240])) (some "b.abc")
        (exLoaded 1 "a.abc")).2.2.head? = some Event.waitTasks ∧
    BarrierFirst (load (exEnv fun _ => some (exArchive [exUniform 0 (1 / 24) 240]))
        (some "b.abc") (exLoaded 1 "a.abc")).2.2 :=
  (barrier_before_release (exEnv fun _ => some (exArchive [exUniform 0 (1 / 24) 240]))
    (some "b.abc") (exLoaded 1 "a.abc")).2.1 (by decide)

/-! ## Exclusive partitioning of the frame range -/

/-- C16: for every frame count `n >= 0`, the synchronously cached range
`[0, 1)` and the ranges `[startIndex, endIndex)` of the tasks enqueued by
`cacheAllSamples` are pairwise disjoint, and every enqueued range holds at
most 10 indices. -/
theorem cacheAllSamples_ranges_disjoint (n : Int) (hn : 0 ≤ n) :
    (((0 : Int), (1 : Int)) :: blockTasks n).Pairwise RangesDisjoint ∧
      ∀ r ∈ blockTasks n, r.2 - r.1 ≤ 10 := by
  have hdiv := tdiv_ten n hn
  have hmod := tmod_ten n hn
  refine ⟨List.pairwise_cons.mpr ⟨?_, ?_⟩, ?_⟩
  · intro r hr i
    rw [mem_blockTasks] at hr
    obtain ⟨b, _, rfl⟩ := hr
    unfold blockRange numFramesPerBlock
    dsimp only
    split_ifs <;> omega
  · unfold blockTasks
    rw [List.pairwise_map]
    refine List.Pairwise.imp_of_mem ?_ (List.pairwise_lt_range _)
    intro a b ha hb hab i
    rw [List.mem_range] at ha hb
    have hbN : (b : Int) < numBlocks n := by omega
    revert hbN
    unfold blockRange numBlocks lastBlockSize numFramesPerBlock
    rw [hdiv, hmod]
    dsimp only
    intro hbN
    split_ifs at hbN ⊢ <;> omega
  · intro r hr
    rw [mem_blockTasks] at hr
    obtain ⟨b, hb, rfl⟩ := hr
    revert hb
    unfold blockRange numBlocks lastBlockSize numFramesPerBlock
    rw [hdiv, hmod]
    dsimp only
    intro hb
    split_ifs at hb ⊢ <;> omega

/-- Witness of C16: 25 frames give the block tasks [1, 10), [10, 20) and
[20, 25), disjoint from each other and from [0, 1). -/
theorem cacheAllSamples_ranges_disjoint_witness :
    blockTasks 25 = [(1, 10), (10, 20), (20, 25)] ∧
    (((0 : Int), (1 : Int)) :: blockTasks 25).Pairwise RangesDisjoint ∧
    ∀ r ∈ blockTasks 25, r.2 - r.1 ≤ 10 :=
  ⟨by decide, cacheAllSamples_ranges_disjoint 25 (by decide)⟩

/-! ## Path normalisation -/

theorem upper_toNat_bounds (c : Char) (h : 'A' ≤ c ∧ c ≤ 'Z') :
    65 ≤ c.toNat ∧ c.toNat ≤ 90 := by
  obtain ⟨h1, h2⟩ := h
  have h1n : ('A' : Char).toNat ≤ c.toNat := h1
  have h2n : c.toNat ≤ ('Z' : Char).toNat := h2
  have hA : ('A' : Char).toNat = 65 := by decide
  have hZ : ('Z' : Char).toNat = 90 := by decide
  omega

theorem lower_of_upper_toNat (n : Nat) (h1 : 65 ≤ n) (h2 : n ≤ 90) :
    (Char.ofNat ('a'.toNat + (n - 'A'.toNat))).toNat = n + 32 := by
  interval_cases n <;> decide

/-- The character `normalizePath` stores for an upper-case letter is the
letter 32 code points further, its lower-case form. -/
theorem normalizeChar_upper (c : Char) (h : 'A' ≤ c ∧ c ≤ 'Z') :
    (normalizeChar c).toNat = c.toNat + 32 := by
  obtain ⟨hlo, hhi⟩ := upper_toNat_bounds c h
  have hne : c ≠ '\\' := by
    intro hc
    have h92 : c.toNat = 92 := by rw [hc]; decide
    omega
  unfold normalizeChar
  rw [if_neg hne, if_pos h]
  exact lower_of_upper_toNat c.toNat hlo hhi

theorem normalizeChar_not_backslash (c : Char) : normalizeChar c ≠ '\\' := by
  by_cases hb : c = '\\'
  · unfold normalizeChar
    rw [if_pos hb]
    decide
  · by_cases hu : 'A' ≤ c ∧ c ≤ 'Z'
    · intro heq
      have h1 := normalizeChar_upper c hu
      have h2 := upper_toNat_bounds c hu
      have h92 : (normalizeChar c).toNat = 92 := by rw [heq]; decide
      omega
    · unfold normalizeChar
      rw [if_neg hb, if_neg hu]
      exact hb

theorem normalizeChar_not_upper (c : Char) :
    ¬ ('A' ≤ normalizeChar c ∧ normalizeChar c ≤ 'Z') := by
  intro hup
  have hb2 := upper_toNat_bounds _ hup
  by_cases hb : c = '\\'
  · have h47 : (normalizeChar c).toNat = 47 := by
      unfold normalizeChar
      rw [if_pos hb]
      decide
    omega
  · by_cases hu : 'A' ≤ c ∧ c ≤ 'Z'
    · have h1 := normalizeChar_upper c hu
      have h2 := upper_toNat_bounds c hu
      omega
    · have hid : normalizeChar c = c := by
        unfold normalizeChar
        rw [if_neg hb, if_neg hu]
      rw [hid] at hup
      exact hu hup

theorem normalizeChar_idem (c : Char) : normalizeChar (normalizeChar c) = normalizeChar c := by
  have h1 := normalizeChar_not_backslash c
  have h2 := normalizeChar_not_upper c
  generalize normalizeChar c = d at h1 h2
  unfold normalizeChar
  rw [if_neg h1, if_neg h2]

/-- C19: `normalizePath` is idempotent in both build variants and maps a null
input to the empty string; in the Windows variant the result has the length
of `p`, contains no backslash and no ASCII upper-case letter, and at every
position holds `/` where `p` has a backslash, the lower-case letter where `p`
has an ASCII upper-case letter, and the character of `p` everywhere else. -/
theorem normalizePath_idempotent (env : Env) (inPath : Option String) :
    normalizePath env (some (normalizePath env inPath)) = normalizePath env inPath ∧
    normalizePath env none = "" ∧
    (env.win32 = true → ∀ p : String,
      (normalizePath env (some p)).length = p.length ∧
      (∀ ch ∈ (normalizePath env (some p)).data, ch ≠ '\\' ∧ ¬ ('A' ≤ ch ∧ ch ≤ 'Z')) ∧
      (∀ (i : Nat) (a b : Char), p.data[i]? = some a →
        (normalizePath env (some p)).data[i]? = some b →
          (a = '\\' → b = '/') ∧
          ('A' ≤ a ∧ a ≤ 'Z' → b.toNat = a.toNat + 32) ∧
          (a ≠ '\\' → ¬ ('A' ≤ a ∧ a ≤ 'Z') → b = a))) := by
  refine ⟨?_, rfl, ?_⟩
  · cases hw : env.win32 with
    | false =>
      cases inPath with
      | none => simp [normalizePath, hw]
      | some p => simp [normalizePath, hw]
    | true =>
      cases inPath with
      | none => simp [normalizePath, hw]
      | some p =>
        simp only [normalizePath, hw, if_true, List.map_map]
        congr 1
        apply List.map_congr_left
        intro ch _
        exact normalizeChar_idem ch
  · intro hw p
    have hdata : (normalizePath env (some p)).data = p.data.map normalizeChar := by
      simp [normalizePath, hw]
    refine ⟨?_, ?_, ?_⟩
    · show (normalizePath env (some p)).data.length = p.data.length
      rw [hdata, List.length_map]
    · intro ch hch
      rw [hdata, List.mem_map] at hch
      obtain ⟨a, _, rfl⟩ := hch
      exact ⟨normalizeChar_not_backslash a, normalizeChar_not_upper a⟩
    · intro i a b ha hb
      rw [hdata, List.getElem?_map, ha] at hb
      have hb2 : normalizeChar a = b := Option.some.inj hb
      subst hb2
      refine ⟨fun h => ?_, fun h => normalizeChar_upper a h, fun h1 h2 => ?_⟩
      · unfold normalizeChar
        rw [if_pos h]
      · unfold normalizeChar
        rw [if_neg h1, if_neg h2]

/-- Witness of C19: the Windows variant turns `C:\Assets\Scene.ABC` into
`c:/assets/scene.abc`, of the same length, and normalising again changes
nothing. -/
theorem normalizePath_idempotent_witness :
    normalizePath exWinEnv (some "C:\\Assets\\Scene.ABC") = "c:/assets/scene.abc" ∧
    (normalizePath exWinEnv (some "C:\\Assets\\Scene.ABC")).length
      = "C:\\Assets\\Scene.ABC".length ∧
    normalizePath exWinEnv (some (normalizePath exWinEnv (some "C:\\Assets\\Scene.ABC")))
      = normalizePath exWinEnv (some "C:\\Assets\\Scene.ABC") :=
  ⟨by decide,
   ((normalizePath_idempotent exWinEnv (some "C:\\Assets\\Scene.ABC")).2.2 rfl
      "C:\\Assets\\Scene.ABC").1,
   (normalizePath_idempotent exWinEnv (some "C:\\Assets\\Scene.ABC")).1⟩

/-! ## Releasing a context -/

theorem ContextMap.find_erase_ne (m : ContextMap) (uid other : Int) (h : other ≠ uid) :
    ContextMap.find (ContextMap.erase m uid) other = ContextMap.find m other := by
  induction m with
  | nil => rfl
  | cons e rest ih =>
    obtain ⟨k, p⟩ := e
    unfold ContextMap.erase
    by_cases hk : k = uid
    · have hko : ¬ k = other := fun hko => h (hko.symm.trans hk)
      rw [if_pos hk]
      show ContextMap.find rest other
        = if k = other then some p else ContextMap.find rest other
      rw [if_neg hko]
    · rw [if_neg hk]
      show (if k = other then some p else ContextMap.find (ContextMap.erase rest uid) other)
        = if k = other then some p else ContextMap.find rest other
      rw [ih]

theorem ContextMap.find_none_of_lt (m : ContextMap) (uid : Int)
    (h : ∀ k ∈ m.map Prod.fst, uid < k) : ContextMap.find m uid = none := by
  induction m with
  | nil => rfl
  | cons e rest ih =>
    obtain ⟨k, p⟩ := e
    have hk : uid < k := h k (List.mem_cons_self _ _)
    have hne : ¬ k = uid := by omega
    unfold ContextMap.find
    rw [if_neg hne]
    exact ih fun k2 hk2 => h k2 (List.mem_cons_of_mem _ hk2)

theorem ContextMap.find_erase_self (m : ContextMap) (uid : Int) (hwf : ContextMap.WF m) :
    ContextMap.find (ContextMap.erase m uid) uid = none := by
  induction m with
  | nil => rfl
  | cons e rest ih =>
    obtain ⟨k, p⟩ := e
    have hwf2 : (k :: rest.map Prod.fst).Pairwise (fun a b => a < b) := hwf
    obtain ⟨hlt, hrestwf⟩ := List.pairwise_cons.mp hwf2
    unfold ContextMap.erase
    by_cases hk : k = uid
    · rw [if_pos hk]
      subst hk
      exact ContextMap.find_none_of_lt rest k hlt
    · rw [if_neg hk]
      unfold ContextMap.find
      rw [if_neg hk]
      exact ih hrestwf

/-- C14: for every registry state (keys unique, as in a `std::map`) and every
live context `ctx` with identifier `id`, `aiContext::destroy(ctx)` returns
normally, a lookup of `id` afterwards finds nothing, every other identifier
maps to the same context as before, and when `id` was not registered the
registry map is unchanged. -/
theorem destroy_unregisters (ctx : Ptr) (w : World) (c : aiContext)
    (hwf : ContextMap.WF w.m_contexts) (hlive : w.heap.lookup ctx = some c) :
    (destroy ctx w).isUndefined = false ∧
    GetContext c.m_uid (destroy ctx w).state = none ∧
    (∀ other : Int, other ≠ c.m_uid →
      GetContext other (destroy ctx w).state = GetContext other w) ∧
    (GetContext c.m_uid w = none → (destroy ctx w).state.m_contexts = w.m_contexts) := by
  have hl : List.lookup ctx w.heap = some c := hlive
  have hd : destroy ctx w = Outcome.done (World.free ctx (UnregisterContext c.m_uid w)) := by
    unfold destroy
    rw [hl]
  rw [hd]
  simp only [Outcome.isUndefined, Outcome.state, GetContext, World.free, UnregisterContext]
  cases hfind : ContextMap.find w.m_contexts c.m_uid with
  | none =>
    refine ⟨trivial, hfind, fun _ _ => rfl, fun _ => rfl⟩
  | some q =>
    refine ⟨trivial, ContextMap.find_erase_self _ _ hwf,
      fun other ho => ContextMap.find_erase_ne _ _ _ ho, fun h => ?_⟩
    cases h

/-- Witness of C14: destroying the context of identifier 2 in a registry
holding 1, 2 and 3 leaves the entries of 1 and 3. -/
theorem destroy_unregisters_witness :
    (destroy 11 exWorld).state.m_contexts = [(1, 10), (3, 12)] ∧
    GetContext 2 (destroy 11 exWorld).state = none ∧
    GetContext 3 (destroy 11 exWorld).state = GetContext 3 exWorld := by
  have h := destroy_unregisters 11 exWorld (exLoaded 2 "a.abc")
    (by simp [ContextMap.WF, exWorld]) rfl
  exact ⟨by decide, h.2.1, h.2.2.1 3 (by decide)⟩

/-! ## `copyTimeSampling` -/

/-- For an existing time sampling `getTimeSampling` returns, and leaves
`dst.times` pointing at the stored times inside the archive. -/
theorem getTimeSampling_times (fl : ℚ → ℚ) (i : Nat) (dst : aiTimeSamplingData)
    (c : aiContext) (ts : TimeSampling) (hts : c.m_archive.timeSamplings[i]? = some ts) :
    ∃ d, getTimeSampling fl i dst c = some d ∧ d.times = DoublePtr.storedTimes i := by
  unfold getTimeSampling
  rw [hts]
  cases hty : ts.type <;> simp [hty]

/-- Whatever the caller announces, `copyTimeSampling` returns the `dst` of
`getTimeSampling` and leaves every caller-owned array as it was: the
destination of its `memcpy` is the archive's own stored times. -/
theorem copyTimeSampling_never_writes (fl : ℚ → ℚ) (i : Nat) (dst : aiTimeSamplingData)
    (mem : CallerMemory) (c : aiContext) (ts : TimeSampling)
    (hts : c.m_archive.timeSamplings[i]? = some ts) :
    ∃ d, getTimeSampling fl i dst c = some d ∧
      copyTimeSampling fl i dst mem c = some (d, mem) := by
  obtain ⟨d, hd, htimes⟩ := getTimeSampling_times fl i dst c ts hts
  refine ⟨d, hd, ?_⟩
  unfold copyTimeSampling
  simp only [hd, hts, htimes, memcpy]
  split_ifs <;> rfl

/-- C13: for every time sampling `i` of the archive and every caller buffer
that is null or whose declared size is smaller than the stored sample count,
`copyTimeSampling(i, dst)` returns, leaves every caller-owned array as it
was, and returns exactly the `dst` (type, startTime, endTime, interval,
numTimes) that `getTimeSampling(i, dst)` returns. -/
theorem copyTimeSampling_small_buffer (fl : ℚ → ℚ) (i : Nat) (dst : aiTimeSamplingData)
    (mem : CallerMemory) (c : aiContext) (ts : TimeSampling)
    (hts : c.m_archive.timeSamplings[i]? = some ts)
    (hsmall : dst.times = DoublePtr.null ∨ dst.numTimes < (ts.getStoredTimes.length : Int)) :
    ∃ d, getTimeSampling fl i dst c = some d ∧
      copyTimeSampling fl i dst mem c = some (d, mem) ∧
      (copyTimeSampling fl i dst mem c).map (fun r => r.1.type) = some d.type ∧
      (copyTimeSampling fl i dst mem c).map (fun r => r.1.startTime) = some d.startTime ∧
      (copyTimeSampling fl i dst mem c).map (fun r => r.1.endTime) = some d.endTime ∧
      (copyTimeSampling fl i dst mem c).map (fun r => r.1.interval) = some d.interval ∧
      (copyTimeSampling fl i dst mem c).map (fun r => r.1.numTimes) = some d.numTimes := by
  have _hsmall := hsmall
  obtain ⟨d, hd, hcopy⟩ := copyTimeSampling_never_writes fl i dst mem c ts hts
  refine ⟨d, hd, hcopy, ?_, ?_, ?_, ?_, ?_⟩ <;> rw [hcopy] <;> rfl

/-- Witness of C13: a buffer of declared size 2 against four stored times. -/
theorem copyTimeSampling_small_buffer_witness :
    ∃ d, getTimeSampling id 0 (exDst 2) exAcyclicContext = some d ∧
      copyTimeSampling id 0 (exDst 2) exMemory exAcyclicContext = some (d, exMemory) := by
  obtain ⟨d, hd, hcopy, _⟩ := copyTimeSampling_small_buffer id 0 (exDst 2) exMemory
    exAcyclicContext (exAcyclic 0 [1 / 10, 1 / 2, 2]) rfl (Or.inr (by decide))
  exact ⟨d, hd, hcopy⟩

/-- C12 (fails on the code): for the Acyclic time sampling with stored times
0, 1/10, 1/2, 2 and a caller buffer at address 0 of declared size 4 holding
9, 9, 9, 9, `copyTimeSampling` returns with the caller's buffer still holding
9, 9, 9, 9: `getTimeSampling` has redirected `dst.times` to the archive's own
stored times before the `memcpy` whose destination is `dst.times`. -/
theorem copyTimeSampling_leaves_buffer_unwritten :
    (exAcyclic 0 [1 / 10, 1 / 2, 2]).getStoredTimes = [0, 1 / 10, 1 / 2, 2] ∧
    (exDst 4).times = DoublePtr.buffer 0 ∧ (exDst 4).numTimes = 4 ∧
    (copyTimeSampling id 0 (exDst 4) exMemory exAcyclicContext).map (fun r => r.2 0)
      = some [9, 9, 9, 9] ∧
    (copyTimeSampling id 0 (exDst 4) exMemory exAcyclicContext).map (fun r => r.1.times)
      = some (DoublePtr.storedTimes 0) ∧
    (copyTimeSampling id 0 (exDst 4) exMemory exAcyclicContext).map (fun r => (r.2 0).take 4)
      ≠ some (exAcyclic 0 [1 / 10, 1 / 2, 2]).getStoredTimes := by
  have hget : getTimeSampling id 0 (exDst 4) exAcyclicContext
      = some { type := aiTimeSamplingType.Acyclic, startTime := 0, endTime := 2, interval := 0,
               numTimes := 4, times := DoublePtr.storedTimes 0 } := by
    decide
  have hcopy : copyTimeSampling id 0 (exDst 4) exMemory exAcyclicContext
      = some ({ type := aiTimeSamplingType.Acyclic, startTime := 0, endTime := 2, interval := 0,
                numTimes := 4, times := DoublePtr.storedTimes 0 }, exMemory) := by
    unfold copyTimeSampling
    rw [hget]
    rfl
  rw [hcopy]
  refine ⟨rfl, rfl, rfl, rfl, rfl, ?_⟩
  simp [exMemory, exAcyclic, TimeSampling.getStoredTimes]

end abci
